import Mathlib

/-!
QoccInputOutput: the multi-format import/export dispatcher.

A shallow embedding of `src/src/qoccinputoutput.cpp`.

The adapter is a call-through layer over two external collaborators, the
geometry kernel (OpenCASCADE) and the GUI toolkit (Qt).  Neither is part of
the repository, so both are taken as a parameter `Env κ`: every kernel entry
point the adapter calls is a field of `Env`, it acts on an abstract kernel
state `κ` (files on disk, reader and writer objects, the viewer), and it
either returns a value or raises `Standard_Failure`.

The adapter's own state is the `World`: the kernel state, the message field
`myInfo`, the depth of the override-cursor stack, and a ghost `trace` of the
kernel calls made so far, each with its outcome.  The trace is not a variable
of the C++ program; it only makes "the writer is never invoked" and "no later
shape is processed" statable.

Conventions.
* `Handle_TopTools_HSequenceOfShape` is `Option (List TopoDS_Shape)`:
  `none` is the null handle, `some []` an empty sequence.
* A C++ `for (i = 1; i <= n; i++)` loop is a structural recursion over the
  sequence (or over the iteration count), so every operation is total.
* `QString::toLatin1().data()` is the `Env` field `toLatin1`, `tr` the
  translation lookup of Qt.
-/

namespace Qocc

/-! ## Kernel data -/

/-- Kernel exception `Standard_Failure` (the only exception type the adapter catches). -/
structure Standard_Failure where
  message : String
  deriving DecidableEq, Repr

/-- Outcome of one call: normal return, or a raised `Standard_Failure`. -/
inductive Outcome (α : Type) where
  | returned (a : α)
  | raised (e : Standard_Failure)
  deriving DecidableEq, Repr

/-- The file-format tag, `QoccInputOutput::FileFormat`. -/
inductive FileFormat where
  | FormatBREP
  | FormatIGES
  | FormatSTEP
  | FormatCSFDB
  | FormatSTL
  | FormatVRML
  deriving DecidableEq, Repr

/-- Kernel status enumeration `IFSelect_ReturnStatus`. -/
inductive IFSelect_ReturnStatus where
  | IFSelect_RetVoid
  | IFSelect_RetDone
  | IFSelect_RetError
  | IFSelect_RetFail
  | IFSelect_RetStop
  deriving DecidableEq, Repr

/-- A surface handle as the facet check sees it: only `IsKind(Geom_Plane)` is asked. -/
structure Geom_Surface where
  isKindPlane : Bool
  deriving DecidableEq, Repr

/-- A curve handle as the facet check sees it: only `IsKind(Geom_Line)` is asked. -/
structure Geom_Curve where
  isKindLine : Bool
  deriving DecidableEq, Repr

/-- A face; `surface` is what `BRep_Tool::Surface` returns, `none` being the null handle. -/
structure TopoDS_Face where
  surface : Option Geom_Surface
  deriving DecidableEq, Repr

/-- An edge; `curve` is what `BRep_Tool::Curve` returns, `none` being the null handle. -/
structure TopoDS_Edge where
  curve : Option Geom_Curve
  deriving DecidableEq, Repr

/-- A shape handle.  `faces` and `edges` are what `TopExp_Explorer` enumerates for
`TopAbs_FACE` and `TopAbs_EDGE`, in exploration order; `tag` tells shapes apart. -/
structure TopoDS_Shape where
  tag : Nat
  isNull : Bool
  faces : List TopoDS_Face
  edges : List TopoDS_Edge
  deriving DecidableEq, Repr

/-- The nullable shape sequence: `none` is the null handle. -/
abbrev Handle_TopTools_HSequenceOfShape := Option (List TopoDS_Shape)

/-- A triangulation read from an STL file (opaque). -/
structure Poly_Triangulation where
  tag : Nat
  deriving DecidableEq, Repr

/-- An object of the interactive context: an `AIS_Shape` (or a subclass of it) carrying
its shape, or any other kind of presentation. -/
inductive AIS_InteractiveObject where
  | aisShape (shape : TopoDS_Shape)
  | nonShape (tag : Nat)
  deriving DecidableEq, Repr

/-- The interactive context as the adapter reads it: the currently selected objects, in
the order `InitCurrent / MoreCurrent / NextCurrent` enumerates them. -/
structure AIS_InteractiveContext where
  current : List AIS_InteractiveObject
  deriving DecidableEq, Repr

/-- Kernel calls whose result the adapter does not use (void, or ignored). -/
inductive VoidCall where
  | igesReaderNew
  | igesTransferRoots
  | stepReaderNew
  | stepPrintCheckLoad (failsonly : Bool)
  | stepPrintCheckTransfer (failsonly : Bool)
  | igesControllerInit
  | igesWriterNew
  | igesComputeModel
  | stepWriterNew
  | makeCompound
  | builderAdd (shape : TopoDS_Shape)
  | stlWrite (file : String)
  | vrmlWrite (file : String)
  | meshNew
  | dataSourceNew (mesh : Option Poly_Triangulation)
  | meshSetDataSource
  | meshAddBuilder
  | drawerDisplayNodes (flag : Bool)
  | drawerShowEdges (flag : Bool)
  | drawerFrontMaterial
  | meshSetColor
  | meshSetDisplayMode
  | meshSetHilightMode
  | icDisplayMesh (update : Bool)
  | aisShapeNew (shape : TopoDS_Shape)
  | icSetMaterial (shape : TopoDS_Shape)
  | icSetColor (shape : TopoDS_Shape)
  | icSetDisplayMode (shape : TopoDS_Shape)
  | icDisplay (shape : TopoDS_Shape)
  deriving DecidableEq, Repr

/-- One kernel call together with its outcome (an entry of the ghost trace). -/
inductive KEvent where
  | brepRead (file : String) (r : Outcome (Bool × TopoDS_Shape))
  | brepWrite (shape : TopoDS_Shape) (file : String) (r : Outcome Bool)
  | igesReadFile (file : String) (r : Outcome IFSelect_ReturnStatus)
  | igesOneShape (r : Outcome TopoDS_Shape)
  | stepReadFile (file : String) (r : Outcome IFSelect_ReturnStatus)
  | stepNbRootsForTransfer (r : Outcome Int)
  | stepTransferRoot (n : Nat) (r : Outcome Bool)
  | stepNbShapes (r : Outcome Int)
  | stepShape (i : Nat) (r : Outcome TopoDS_Shape)
  | igesAddShape (shape : TopoDS_Shape) (r : Outcome Bool)
  | igesWrite (file : String) (r : Outcome Bool)
  | stepTransfer (shape : TopoDS_Shape) (r : Outcome IFSelect_ReturnStatus)
  | stepWrite (file : String) (r : Outcome IFSelect_ReturnStatus)
  | stlReadFile (file : String) (r : Outcome (Option Poly_Triangulation))
  | perform (c : VoidCall) (r : Outcome Unit)
  deriving DecidableEq, Repr

/-- Whether the outcome is a raised exception. -/
def Outcome.isRaised {α : Type} : Outcome α → Bool
  | .returned _ => false
  | .raised _ => true

/-- Whether the recorded kernel call raised `Standard_Failure`. -/
def KEvent.isRaised : KEvent → Bool
  | .brepRead _ r => r.isRaised
  | .brepWrite _ _ r => r.isRaised
  | .igesReadFile _ r => r.isRaised
  | .igesOneShape r => r.isRaised
  | .stepReadFile _ r => r.isRaised
  | .stepNbRootsForTransfer r => r.isRaised
  | .stepTransferRoot _ r => r.isRaised
  | .stepNbShapes r => r.isRaised
  | .stepShape _ r => r.isRaised
  | .igesAddShape _ r => r.isRaised
  | .igesWrite _ r => r.isRaised
  | .stepTransfer _ r => r.isRaised
  | .stepWrite _ r => r.isRaised
  | .stlReadFile _ r => r.isRaised
  | .perform _ r => r.isRaised

/-- Whether the recorded call is one of the file writers
(`BRepTools::Write`, `IGESControl_Writer::Write`, `STEPControl_Writer::Write`,
`StlAPI_Writer::Write`, `VrmlAPI_Writer::Write`). -/
def KEvent.isFileWrite : KEvent → Bool
  | .brepWrite _ _ _ => true
  | .igesWrite _ _ => true
  | .stepWrite _ _ => true
  | .perform (.stlWrite _) _ => true
  | .perform (.vrmlWrite _) _ => true
  | _ => false

/-- The external collaborators: every kernel entry point the adapter calls, acting on
the kernel state `κ`, plus the two Qt string services. -/
structure Env (κ : Type) where
  tr : String → String
  toLatin1 : String → String
  brepRead : String → κ → Outcome (Bool × TopoDS_Shape) × κ
  brepWrite : TopoDS_Shape → String → κ → Outcome Bool × κ
  igesReadFile : String → κ → Outcome IFSelect_ReturnStatus × κ
  igesOneShape : κ → Outcome TopoDS_Shape × κ
  stepReadFile : String → κ → Outcome IFSelect_ReturnStatus × κ
  stepNbRootsForTransfer : κ → Outcome Int × κ
  stepTransferRoot : Nat → κ → Outcome Bool × κ
  stepNbShapes : κ → Outcome Int × κ
  stepShape : Nat → κ → Outcome TopoDS_Shape × κ
  igesAddShape : TopoDS_Shape → κ → Outcome Bool × κ
  igesWrite : String → κ → Outcome Bool × κ
  stepTransfer : TopoDS_Shape → κ → Outcome IFSelect_ReturnStatus × κ
  stepWrite : String → κ → Outcome IFSelect_ReturnStatus × κ
  stlReadFile : String → κ → Outcome (Option Poly_Triangulation) × κ
  perform : VoidCall → κ → Outcome Unit × κ

/-- The adapter's state: kernel state, the message field `myInfo`, the depth of Qt's
override-cursor stack, and the ghost trace of kernel calls. -/
structure World (κ : Type) where
  kernel : κ
  myInfo : String
  overrideCursor : Nat
  trace : List KEvent

/-- A member function of `QoccInputOutput` returning `α`: it runs on a world and either
returns or lets a `Standard_Failure` propagate. -/
def Adapter (κ : Type) (α : Type) : Type := World κ → Outcome α × World κ

/-- Normal return. -/
def Adapter.ret {κ α : Type} (a : α) : Adapter κ α := fun s => (.returned a, s)

/-- Sequencing: a raised exception skips the rest. -/
def Adapter.andThen {κ α β : Type} (m : Adapter κ α) (f : α → Adapter κ β) : Adapter κ β :=
  fun s =>
    match m s with
    | (.returned a, s1) => f a s1
    | (.raised e, s1) => (.raised e, s1)

instance {κ : Type} : Monad (Adapter κ) where
  pure := Adapter.ret
  bind := Adapter.andThen

/-- The block `try { body } catch ( Standard_Failure ) { handler }`. -/
def Adapter.tryCatch {κ α : Type} (body : Adapter κ α) (handler : Adapter κ α) : Adapter κ α :=
  fun s =>
    match body s with
    | (.returned a, s1) => (.returned a, s1)
    | (.raised _, s1) => handler s1

/-- One kernel call: run it on the kernel state and record it, with its outcome, in the
trace. -/
def kcall {κ α : Type} (ev : Outcome α → KEvent) (op : κ → Outcome α × κ) : Adapter κ α :=
  fun s =>
    match op s.kernel with
    | (r, k) => (r, { s with kernel := k, trace := s.trace ++ [ev r] })

/-- A kernel call whose result is not used. -/
def kvoid {κ : Type} (E : Env κ) (c : VoidCall) : Adapter κ Unit :=
  kcall (KEvent.perform c) (E.perform c)

/-- Assignment to the message field `myInfo`. -/
def setInfo {κ : Type} (msg : String) : Adapter κ Unit :=
  fun s => (.returned (), { s with myInfo := msg })

/-- The call `QApplication::setOverrideCursor( Qt::WaitCursor )`. -/
def setOverrideCursor {κ : Type} : Adapter κ Unit :=
  fun s => (.returned (), { s with overrideCursor := s.overrideCursor + 1 })

/-- The call `QApplication::restoreOverrideCursor()`. -/
def restoreOverrideCursor {κ : Type} : Adapter κ Unit :=
  fun s => (.returned (), { s with overrideCursor := s.overrideCursor - 1 })

/-! ## Import -/

/-- `QoccInputOutput::importMesh` (the STL loader): reads the triangulation, wraps it in a
mesh presentation and displays it.  It has no `try` block and ends in `return true`. -/
def importMesh {κ : Type} (E : Env κ) (fileName : String) (_format : FileFormat)
    (_ic : AIS_InteractiveContext) : Adapter κ Bool := do
  let aSTLMesh ← kcall (KEvent.stlReadFile (E.toLatin1 fileName))
    (E.stlReadFile (E.toLatin1 fileName))
  kvoid E .meshNew
  kvoid E (.dataSourceNew aSTLMesh)
  kvoid E .meshSetDataSource
  kvoid E .meshAddBuilder
  kvoid E (.drawerDisplayNodes false)
  kvoid E (.drawerShowEdges false)
  kvoid E .drawerFrontMaterial
  kvoid E .meshSetColor
  kvoid E .meshSetDisplayMode
  kvoid E .meshSetHilightMode
  kvoid E (.icDisplayMesh true)
  pure true

/-- `QoccInputOutput::importBREP`: one shape when `BRepTools::Read` reports success, the
null handle otherwise. -/
def importBREP {κ : Type} (E : Env κ) (file : String) :
    Adapter κ Handle_TopTools_HSequenceOfShape := do
  let r ← kcall (KEvent.brepRead (E.toLatin1 file)) (E.brepRead (E.toLatin1 file))
  if r.1 then
    pure (some ([] ++ [r.2]))
  else
    pure none

/-- `QoccInputOutput::importIGES`: on `IFSelect_RetDone`, transfers the roots and returns
the one resulting shape. -/
def importIGES {κ : Type} (E : Env κ) (file : String) :
    Adapter κ Handle_TopTools_HSequenceOfShape := do
  kvoid E .igesReaderNew
  let status ← kcall (KEvent.igesReadFile (E.toLatin1 file)) (E.igesReadFile (E.toLatin1 file))
  if status = .IFSelect_RetDone then
    kvoid E .igesTransferRoots
    let aShape ← kcall KEvent.igesOneShape E.igesOneShape
    pure (some ([] ++ [aShape]))
  else
    pure none

/-- The inner loop of `importSTEP`, `for ( int i = 1; i <= nbs; i++ )`: `count` iterations
are left, `i` is the loop variable, `aSequence` the sequence built so far. -/
def importSTEP.shapes {κ : Type} (E : Env κ) :
    (count : Nat) → (i : Nat) → List TopoDS_Shape → Adapter κ (List TopoDS_Shape)
  | 0, _, aSequence => pure aSequence
  | count + 1, i, aSequence => do
    let shape ← kcall (KEvent.stepShape i) (E.stepShape i)
    importSTEP.shapes E count (i + 1) (aSequence ++ [shape])

/-- The outer loop of `importSTEP`, `for ( Standard_Integer n = 1; n <= nbr; n++ )`: every
root that transfers with at least one shape in the reader replaces `aSequence` by a new
sequence of all the reader's shapes. -/
def importSTEP.roots {κ : Type} (E : Env κ) :
    (count : Nat) → (n : Nat) → Handle_TopTools_HSequenceOfShape →
      Adapter κ Handle_TopTools_HSequenceOfShape
  | 0, _, aSequence => pure aSequence
  | count + 1, n, aSequence => do
    let ok ← kcall (KEvent.stepTransferRoot n) (E.stepTransferRoot n)
    if ok then
      let nbs ← kcall KEvent.stepNbShapes E.stepNbShapes
      if nbs > 0 then
        let fresh ← importSTEP.shapes E nbs.toNat 1 []
        importSTEP.roots E count (n + 1) (some fresh)
      else
        importSTEP.roots E count (n + 1) aSequence
    else
      importSTEP.roots E count (n + 1) aSequence

/-- `QoccInputOutput::importSTEP`. -/
def importSTEP {κ : Type} (E : Env κ) (file : String) :
    Adapter κ Handle_TopTools_HSequenceOfShape := do
  kvoid E .stepReaderNew
  let status ← kcall (KEvent.stepReadFile (E.toLatin1 file)) (E.stepReadFile (E.toLatin1 file))
  if status = .IFSelect_RetDone then
    let failsonly := false
    kvoid E (.stepPrintCheckLoad failsonly)
    let nbr ← kcall KEvent.stepNbRootsForTransfer E.stepNbRootsForTransfer
    kvoid E (.stepPrintCheckTransfer failsonly)
    importSTEP.roots E nbr.toNat 1 none
  else
    pure none

/-- `QoccInputOutput::importCSFDB`: the body is compiled out (`#if 0`), what is left
returns the null handle. -/
def importCSFDB {κ : Type} (_E : Env κ) (_file : String) :
    Adapter κ Handle_TopTools_HSequenceOfShape :=
  pure none

/-- The `switch` of `importModel( format, file )`; STL and VRML fall to `default`. -/
def importModel.dispatch {κ : Type} (E : Env κ) (format : FileFormat) (file : String) :
    Adapter κ Handle_TopTools_HSequenceOfShape :=
  match format with
  | .FormatBREP => importBREP E file
  | .FormatIGES => importIGES E file
  | .FormatSTEP => importSTEP E file
  | .FormatCSFDB => importCSFDB E file
  | _ => pure none

/-- `QoccInputOutput::importModel( format, file )`: the dispatch inside
`try { } catch ( Standard_Failure ) { shapes.Nullify(); }`. -/
def importModel {κ : Type} (E : Env κ) (format : FileFormat) (file : String) :
    Adapter κ Handle_TopTools_HSequenceOfShape :=
  Adapter.tryCatch (importModel.dispatch E format file) (pure none)

/-- The display loop of `importModel( fileName, format, ic )`. -/
def importModel.display {κ : Type} (E : Env κ) : List TopoDS_Shape → Adapter κ Unit
  | [] => pure ()
  | shape :: rest => do
    kvoid E (.aisShapeNew shape)
    kvoid E (.icSetMaterial shape)
    kvoid E (.icSetColor shape)
    kvoid E (.icSetDisplayMode shape)
    kvoid E (.icDisplay shape)
    importModel.display E rest

/-- `QoccInputOutput::importModel( fileName, format, ic )`: STL goes through `importMesh`,
every other format through `importModel( format, file )`; there is no `try` block here. -/
def importModelIC {κ : Type} (E : Env κ) (fileName : String) (format : FileFormat)
    (ic : AIS_InteractiveContext) : Adapter κ Bool := do
  setOverrideCursor
  let result ←
    if format = .FormatSTL then
      importMesh E fileName format ic
    else do
      let shapes ← importModel E format fileName
      match shapes with
      | none => pure false
      | some [] => pure false
      | some (shape :: rest) => do
        importModel.display E (shape :: rest)
        pure true
  restoreOverrideCursor
  pure result

/-! ## Export -/

/-- `QoccInputOutput::getShapes`: walks the current selection and appends the shape of
every `AIS_Shape`; the sequence is created at the first such object, so the handle stays
null when there is none. -/
def getShapes.loop :
    List AIS_InteractiveObject → Handle_TopTools_HSequenceOfShape →
      Handle_TopTools_HSequenceOfShape
  | [], aSequence => aSequence
  | .aisShape shape :: rest, aSequence =>
    match aSequence with
    | none => getShapes.loop rest (some ([] ++ [shape]))
    | some l => getShapes.loop rest (some (l ++ [shape]))
  | .nonShape _ :: rest, aSequence => getShapes.loop rest aSequence

/-- `QoccInputOutput::getShapes( ic )`. -/
def getShapes (ic : AIS_InteractiveContext) : Handle_TopTools_HSequenceOfShape :=
  getShapes.loop ic.current none

/-- `QoccInputOutput::exportBREP`: writes the first shape of the sequence. -/
def exportBREP {κ : Type} (E : Env κ) (file : String)
    (shapes : Handle_TopTools_HSequenceOfShape) : Adapter κ Bool :=
  match shapes with
  | none => pure false
  | some [] => pure false
  | some (shape :: _) =>
    kcall (KEvent.brepWrite shape (E.toLatin1 file)) (E.brepWrite shape (E.toLatin1 file))

/-- The loop of `exportIGES`: `writer.AddShape( shapes->Value( i ) )`, result not used. -/
def exportIGES.addShapes {κ : Type} (E : Env κ) : List TopoDS_Shape → Adapter κ Unit
  | [] => pure ()
  | shape :: rest => do
    let _ ← kcall (KEvent.igesAddShape shape) (E.igesAddShape shape)
    exportIGES.addShapes E rest

/-- `QoccInputOutput::exportIGES`. -/
def exportIGES {κ : Type} (E : Env κ) (file : String)
    (shapes : Handle_TopTools_HSequenceOfShape) : Adapter κ Bool :=
  match shapes with
  | none => pure false
  | some [] => pure false
  | some (shape :: rest) => do
    kvoid E .igesControllerInit
    kvoid E .igesWriterNew
    exportIGES.addShapes E (shape :: rest)
    kvoid E .igesComputeModel
    kcall (KEvent.igesWrite (E.toLatin1 file)) (E.igesWrite (E.toLatin1 file))

/-- The transfer loop of `exportSTEP`: `true` when every shape transferred with
`IFSelect_RetDone`, `false` when the loop left through `return false`. -/
def exportSTEP.transfer {κ : Type} (E : Env κ) : List TopoDS_Shape → Adapter κ Bool
  | [] => pure true
  | shape :: rest => do
    let status ← kcall (KEvent.stepTransfer shape) (E.stepTransfer shape)
    if status ≠ .IFSelect_RetDone then
      pure false
    else
      exportSTEP.transfer E rest

/-- The `switch ( status )` of `exportSTEP` after `writer.Write`. -/
def exportSTEP.report {κ : Type} (E : Env κ) (status : IFSelect_ReturnStatus) :
    Adapter κ Unit :=
  match status with
  | .IFSelect_RetError => setInfo (E.tr "INF_DATA_ERROR")
  | .IFSelect_RetFail => setInfo (E.tr "INF_WRITING_ERROR")
  | .IFSelect_RetVoid => setInfo (E.tr "INF_NOTHING_ERROR")
  | _ => pure ()

/-- `QoccInputOutput::exportSTEP`. -/
def exportSTEP {κ : Type} (E : Env κ) (file : String)
    (shapes : Handle_TopTools_HSequenceOfShape) : Adapter κ Bool :=
  match shapes with
  | none => pure false
  | some [] => pure false
  | some (shape :: rest) => do
    kvoid E .stepWriterNew
    let transferred ← exportSTEP.transfer E (shape :: rest)
    if transferred then
      let status ← kcall (KEvent.stepWrite (E.toLatin1 file)) (E.stepWrite (E.toLatin1 file))
      exportSTEP.report E status
      pure (decide (status = .IFSelect_RetDone))
    else
      pure false

/-- `QoccInputOutput::exportCSFDB`: the body, its null/empty guard included, is compiled
out (`#if 0`); what is left is `return true`. -/
def exportCSFDB {κ : Type} (_E : Env κ) (_file : String)
    (_shapes : Handle_TopTools_HSequenceOfShape) : Adapter κ Bool :=
  pure true

/-- The compound-building loop shared, verbatim, by `exportSTL` and `exportVRML`: `true`
when every shape was added, `false` when a null shape made the loop `return false` after
setting `myInfo`. -/
def exportCompound.addAll {κ : Type} (E : Env κ) : List TopoDS_Shape → Adapter κ Bool
  | [] => pure true
  | shape :: rest =>
    if shape.isNull then do
      setInfo (E.tr "INF_TRANSLATE_ERROR_INVALIDSHAPE")
      pure false
    else do
      kvoid E (.builderAdd shape)
      exportCompound.addAll E rest

/-- `QoccInputOutput::exportSTL`. -/
def exportSTL {κ : Type} (E : Env κ) (file : String)
    (shapes : Handle_TopTools_HSequenceOfShape) : Adapter κ Bool :=
  match shapes with
  | none => pure false
  | some [] => pure false
  | some (shape :: rest) => do
    kvoid E .makeCompound
    let added ← exportCompound.addAll E (shape :: rest)
    if added then
      kvoid E (.stlWrite (E.toLatin1 file))
      pure true
    else
      pure false

/-- `QoccInputOutput::exportVRML`. -/
def exportVRML {κ : Type} (E : Env κ) (file : String)
    (shapes : Handle_TopTools_HSequenceOfShape) : Adapter κ Bool :=
  match shapes with
  | none => pure false
  | some [] => pure false
  | some (shape :: rest) => do
    kvoid E .makeCompound
    let added ← exportCompound.addAll E (shape :: rest)
    if added then
      kvoid E (.vrmlWrite (E.toLatin1 file))
      pure true
    else
      pure false

/-- The `switch` of `exportModel( format, file, shapes )`. -/
def exportModel.dispatch {κ : Type} (E : Env κ) (format : FileFormat) (file : String)
    (shapes : Handle_TopTools_HSequenceOfShape) : Adapter κ Bool :=
  match format with
  | .FormatBREP => exportBREP E file shapes
  | .FormatIGES => exportIGES E file shapes
  | .FormatSTEP => exportSTEP E file shapes
  | .FormatCSFDB => exportCSFDB E file shapes
  | .FormatSTL => exportSTL E file shapes
  | .FormatVRML => exportVRML E file shapes

/-- `QoccInputOutput::exportModel( format, file, shapes )`: the dispatch inside
`try { } catch ( Standard_Failure ) { status = false; }`. -/
def exportModel {κ : Type} (E : Env κ) (format : FileFormat) (file : String)
    (shapes : Handle_TopTools_HSequenceOfShape) : Adapter κ Bool :=
  Adapter.tryCatch (exportModel.dispatch E format file shapes) (pure false)

/-- `QoccInputOutput::exportModel( fileName, format, ic )`: harvests the selection and
returns `false` before any dispatch when it is null or empty. -/
def exportModelIC {κ : Type} (E : Env κ) (fileName : String) (format : FileFormat)
    (ic : AIS_InteractiveContext) : Adapter κ Bool :=
  match getShapes ic with
  | none => pure false
  | some [] => pure false
  | some (shape :: rest) => do
    setOverrideCursor
    let stat ← exportModel E format fileName (some (shape :: rest))
    restoreOverrideCursor
    pure stat

/-! ## Facet check -/

/-- One examination made by the facet check: a face asked for its surface, or an edge
asked for its curve (ghost record, in the order the examinations happen). -/
inductive Probe where
  | face (f : TopoDS_Face)
  | edge (e : TopoDS_Edge)
  deriving DecidableEq, Repr

/-- The local state of `checkFacetedBrep`: the flag `err` and the ghost list of the
faces and edges examined so far. -/
structure FacetScan where
  err : Bool
  examined : List Probe
  deriving DecidableEq, Repr

/-- The face loop, `for ( fexp( shape, TopAbs_FACE ); fexp.More() && !err; fexp.Next() )`.
`none` is the undefined behaviour of `surface->IsKind` on a null surface handle. -/
def checkFacetedBrep.faces : List TopoDS_Face → FacetScan → Option FacetScan
  | [], st => some st
  | f :: rest, st =>
    if st.err then
      some st
    else
      match f.surface with
      | none => none
      | some surface =>
        checkFacetedBrep.faces rest
          { err := if !surface.isKindPlane then true else st.err
            examined := st.examined ++ [Probe.face f] }

/-- The edge loop, `for ( eexp( shape, TopAbs_EDGE ); eexp.More() && !err; eexp.Next() )`.
`none` is the undefined behaviour of `curve->IsKind` on a null curve handle. -/
def checkFacetedBrep.edges : List TopoDS_Edge → FacetScan → Option FacetScan
  | [], st => some st
  | e :: rest, st =>
    if st.err then
      some st
    else
      match e.curve with
      | none => none
      | some curve =>
        checkFacetedBrep.edges rest
          { err := if !curve.isKindLine then true else st.err
            examined := st.examined ++ [Probe.edge e] }

/-- The shape loop, `for ( int i = 1; i <= shapes->Length(); i++ )`; it does not test
`err` itself. -/
def checkFacetedBrep.shapes : List TopoDS_Shape → FacetScan → Option FacetScan
  | [], st => some st
  | shape :: rest, st =>
    match checkFacetedBrep.faces shape.faces st with
    | none => none
    | some st1 =>
      match checkFacetedBrep.edges shape.edges st1 with
      | none => none
      | some st2 => checkFacetedBrep.shapes rest st2

/-- `QoccInputOutput::checkFacetedBrep`: the result `!err` together with the ghost list
of examined faces and edges.  `none` is undefined behaviour: `shapes->Length()` on a null
handle, or `IsKind` on a null surface or curve. -/
def checkFacetedBrep (shapes : Handle_TopTools_HSequenceOfShape) : Option (Bool × List Probe) :=
  match shapes with
  | none => none
  | some l =>
    match checkFacetedBrep.shapes l { err := false, examined := [] } with
    | none => none
    | some st => some (!st.err, st.examined)

/-! ### Vocabulary of the facet-check property -/

/-- Specification vocabulary: the face is a plane (it has a surface of kind `Geom_Plane`). -/
def TopoDS_Face.isPlanar (f : TopoDS_Face) : Bool :=
  match f.surface with
  | some surface => surface.isKindPlane
  | none => false

/-- Specification vocabulary: the edge is a straight line (it has a curve of kind
`Geom_Line`). -/
def TopoDS_Edge.isLinear (e : TopoDS_Edge) : Bool :=
  match e.curve with
  | some curve => curve.isKindLine
  | none => false

/-- Specification vocabulary: the examined item is a non-planar face or a non-linear
edge. -/
def Probe.isCurved : Probe → Bool
  | .face f => !f.isPlanar
  | .edge e => !e.isLinear

/-- Specification vocabulary: every face and edge of the collection, in the order of the
loops: shape by shape, the faces of a shape before its edges. -/
def allProbes : List TopoDS_Shape → List Probe
  | [] => []
  | shape :: rest =>
    shape.faces.map Probe.face ++ shape.edges.map Probe.edge ++ allProbes rest

/-- Reference scan used in the proofs: examine the probes in order and stop after the
first curved one. -/
def scanProbes : List Probe → FacetScan → FacetScan
  | [], st => st
  | p :: rest, st =>
    if st.err then
      st
    else
      scanProbes rest { err := p.isCurved, examined := st.examined ++ [p] }

/-- Specification vocabulary: the shape of a selected object when it is an `AIS_Shape`. -/
def AIS_InteractiveObject.shapeOf : AIS_InteractiveObject → Option TopoDS_Shape
  | .aisShape shape => some shape
  | .nonShape _ => none

/-! ## A scripted kernel for concrete runs -/

/-- Kernel state of the scripted kernel: the BREP files on disk, the latest first. -/
abbrev Disk := List (String × TopoDS_Shape)

/-- A polyhedral shape: one planar face, one straight edge. -/
def cube : TopoDS_Shape :=
  { tag := 1, isNull := false
    faces := [{ surface := some { isKindPlane := true } }]
    edges := [{ curve := some { isKindLine := true } }] }

/-- A curved shape: one non-planar face, one straight edge. -/
def ball : TopoDS_Shape :=
  { tag := 2, isNull := false
    faces := [{ surface := some { isKindPlane := false } }]
    edges := [{ curve := some { isKindLine := true } }] }

/-- A null shape (a default-constructed `TopoDS_Shape`). -/
def nullShape : TopoDS_Shape :=
  { tag := 0, isNull := true, faces := [], edges := [] }

/-- A kernel in which every call succeeds: BREP files are stored on and read back from
the disk, every reader accepts every file, every writer reports success. -/
def scriptedEnv : Env Disk where
  tr := id
  toLatin1 := id
  brepRead file disk :=
    match disk.lookup file with
    | some shape => (.returned (true, shape), disk)
    | none => (.returned (false, nullShape), disk)
  brepWrite shape file disk := (.returned true, (file, shape) :: disk)
  igesReadFile _ disk := (.returned .IFSelect_RetDone, disk)
  igesOneShape disk := (.returned cube, disk)
  stepReadFile _ disk := (.returned .IFSelect_RetDone, disk)
  stepNbRootsForTransfer disk := (.returned 1, disk)
  stepTransferRoot _ disk := (.returned true, disk)
  stepNbShapes disk := (.returned 2, disk)
  stepShape i disk := (.returned (if i = 1 then cube else ball), disk)
  igesAddShape _ disk := (.returned true, disk)
  igesWrite _ disk := (.returned true, disk)
  stepTransfer _ disk := (.returned .IFSelect_RetDone, disk)
  stepWrite _ disk := (.returned .IFSelect_RetDone, disk)
  stlReadFile _ disk := (.returned (some { tag := 7 }), disk)
  perform _ disk := (.returned (), disk)

/-- The scripted kernel with an STL reader that reports failure (a null triangulation),
as for a missing file. -/
def stlFailingEnv : Env Disk :=
  { scriptedEnv with stlReadFile := fun _ disk => (.returned none, disk) }

/-- The scripted kernel with an STL reader that raises `Standard_Failure`. -/
def stlRaisingEnv : Env Disk :=
  { scriptedEnv with
    stlReadFile := fun _ disk => (.raised { message := "RWStl::ReadFile" }, disk) }

/-- The scripted kernel with a STEP writer whose `Transfer` reports `IFSelect_RetFail`. -/
def stepTransferFailEnv : Env Disk :=
  { scriptedEnv with stepTransfer := fun _ disk => (.returned .IFSelect_RetFail, disk) }

/-- The scripted kernel with a STEP writer whose `Write` reports `IFSelect_RetError`. -/
def stepWriteErrorEnv : Env Disk :=
  { scriptedEnv with stepWrite := fun _ disk => (.returned .IFSelect_RetError, disk) }

/-- The scripted kernel with an IGES writer whose `AddShape` rejects the shape `ball`
and accepts every other shape. -/
def igesRejectBallEnv : Env Disk :=
  { scriptedEnv with
    igesAddShape := fun shape disk => (.returned (decide (shape ≠ ball)), disk) }

/-- The scripted kernel with a BREP writer that raises `Standard_Failure`. -/
def brepWriteRaisingEnv : Env Disk :=
  { scriptedEnv with
    brepWrite := fun _ _ disk => (.raised { message := "BRepTools::Write" }, disk) }

/-- The scripted kernel with a BREP reader that raises `Standard_Failure`. -/
def brepReadRaisingEnv : Env Disk :=
  { scriptedEnv with
    brepRead := fun _ disk => (.raised { message := "BRepTools::Read" }, disk) }

/-- The scripted kernel with a STEP reader whose `ReadFile` reports `IFSelect_RetFail`. -/
def stepReadFailEnv : Env Disk :=
  { scriptedEnv with stepReadFile := fun _ disk => (.returned .IFSelect_RetFail, disk) }

/-- The initial world of the concrete runs: empty disk, empty message, no override
cursor, empty trace. -/
def world0 : World Disk :=
  { kernel := [], myInfo := "", overrideCursor := 0, trace := [] }

/-- Proof vocabulary: `m` only appends to the trace, and when it returns normally none of
the kernel calls it made raised. -/
def Honest {κ α : Type} (m : Adapter κ α) : Prop :=
  ∀ s : World κ, ∃ evs, (m s).2.trace = s.trace ++ evs ∧
    ∀ a, (m s).1 = .returned a → ∀ ev ∈ evs, ev.isRaised = false

/-- Proof vocabulary: `m` leaves the message field `myInfo` as it found it. -/
def KeepsInfo {κ α : Type} (m : Adapter κ α) : Prop :=
  ∀ s : World κ, (m s).2.myInfo = s.myInfo

/-! ## Basic facts about sequencing -/

theorem Adapter.bind_apply {κ α β : Type} (m : Adapter κ α) (f : α → Adapter κ β)
    (s : World κ) :
    (m >>= f) s =
      match m s with
      | (.returned a, s1) => f a s1
      | (.raised e, s1) => (.raised e, s1) := rfl

theorem Adapter.pure_apply {κ α : Type} (a : α) (s : World κ) :
    (pure a : Adapter κ α) s = (.returned a, s) := rfl

theorem kcall_apply {κ α : Type} (ev : Outcome α → KEvent) (op : κ → Outcome α × κ)
    (s : World κ) :
    kcall ev op s =
      ((op s.kernel).1,
        { s with kernel := (op s.kernel).2, trace := s.trace ++ [ev (op s.kernel).1] }) := rfl

theorem kvoid_apply {κ : Type} (E : Env κ) (c : VoidCall) (s : World κ) :
    kvoid E c s =
      ((E.perform c s.kernel).1,
        { s with
          kernel := (E.perform c s.kernel).2
          trace := s.trace ++ [KEvent.perform c (E.perform c s.kernel).1] }) := rfl

theorem setInfo_apply {κ : Type} (msg : String) (s : World κ) :
    (setInfo msg : Adapter κ Unit) s = (.returned (), { s with myInfo := msg }) := rfl

/-! ## Facet check: proofs -/

theorem scanProbes_of_err (l : List Probe) (st : FacetScan) (h : st.err = true) :
    scanProbes l st = st := by
  cases l with
  | nil => rfl
  | cons p rest => simp [scanProbes, h]

theorem scanProbes_append (a b : List Probe) (st : FacetScan) :
    scanProbes (a ++ b) st = scanProbes b (scanProbes a st) := by
  induction a generalizing st with
  | nil => rfl
  | cons p rest ih =>
    cases herr : st.err with
    | true =>
      rw [scanProbes_of_err _ st herr, scanProbes_of_err _ st herr, scanProbes_of_err _ st herr]
    | false => simp [scanProbes, herr, ih]

theorem scanProbes_clean (l : List Probe) (st : FacetScan) (herr : st.err = false)
    (h : ∀ p ∈ l, p.isCurved = false) :
    scanProbes l st = { err := false, examined := st.examined ++ l } := by
  induction l generalizing st with
  | nil => cases st; simp_all [scanProbes]
  | cons p rest ih =>
    have hp : p.isCurved = false := h p (List.mem_cons_self _ _)
    have hrest : ∀ q ∈ rest, q.isCurved = false := fun q hq => h q (List.mem_cons_of_mem _ hq)
    simp [scanProbes, herr, hp, ih { err := false, examined := st.examined ++ [p] } rfl hrest]

theorem scanProbes_stop (pre post : List Probe) (x : Probe) (st : FacetScan)
    (herr : st.err = false) (hpre : ∀ p ∈ pre, p.isCurved = false) (hx : x.isCurved = true) :
    scanProbes (pre ++ x :: post) st = { err := true, examined := st.examined ++ pre ++ [x] } := by
  rw [scanProbes_append, scanProbes_clean pre st herr hpre]
  simp only [scanProbes, hx]
  rw [scanProbes_of_err _ _ rfl]
  simp

theorem checkFacetedBrep.faces_eq (fs : List TopoDS_Face) (st : FacetScan)
    (hs : ∀ f ∈ fs, f.surface ≠ none) :
    checkFacetedBrep.faces fs st = some (scanProbes (fs.map Probe.face) st) := by
  induction fs generalizing st with
  | nil => rfl
  | cons f rest ih =>
    have hrest : ∀ g ∈ rest, g.surface ≠ none := fun g hg => hs g (List.mem_cons_of_mem _ hg)
    cases herr : st.err with
    | true => simp [checkFacetedBrep.faces, scanProbes, herr]
    | false =>
      cases hsurf : f.surface with
      | none => exact absurd hsurf (hs f (List.mem_cons_self _ _))
      | some surface =>
        simp [checkFacetedBrep.faces, scanProbes, herr, hsurf, ih _ hrest, Probe.isCurved,
          TopoDS_Face.isPlanar]

theorem checkFacetedBrep.edges_eq (es : List TopoDS_Edge) (st : FacetScan)
    (hs : ∀ e ∈ es, e.curve ≠ none) :
    checkFacetedBrep.edges es st = some (scanProbes (es.map Probe.edge) st) := by
  induction es generalizing st with
  | nil => rfl
  | cons e rest ih =>
    have hrest : ∀ g ∈ rest, g.curve ≠ none := fun g hg => hs g (List.mem_cons_of_mem _ hg)
    cases herr : st.err with
    | true => simp [checkFacetedBrep.edges, scanProbes, herr]
    | false =>
      cases hcurve : e.curve with
      | none => exact absurd hcurve (hs e (List.mem_cons_self _ _))
      | some curve =>
        simp [checkFacetedBrep.edges, scanProbes, herr, hcurve, ih _ hrest, Probe.isCurved,
          TopoDS_Edge.isLinear]

theorem checkFacetedBrep.shapes_eq (l : List TopoDS_Shape) (st : FacetScan)
    (hf : ∀ shape ∈ l, ∀ f ∈ shape.faces, f.surface ≠ none)
    (he : ∀ shape ∈ l, ∀ e ∈ shape.edges, e.curve ≠ none) :
    checkFacetedBrep.shapes l st = some (scanProbes (allProbes l) st) := by
  induction l generalizing st with
  | nil => rfl
  | cons shape rest ih =>
    have hf1 := hf shape (List.mem_cons_self _ _)
    have he1 := he shape (List.mem_cons_self _ _)
    have hf2 : ∀ x ∈ rest, ∀ f ∈ x.faces, f.surface ≠ none :=
      fun x hx => hf x (List.mem_cons_of_mem _ hx)
    have he2 : ∀ x ∈ rest, ∀ e ∈ x.edges, e.curve ≠ none :=
      fun x hx => he x (List.mem_cons_of_mem _ hx)
    simp only [checkFacetedBrep.shapes, checkFacetedBrep.faces_eq _ _ hf1,
      checkFacetedBrep.edges_eq _ _ he1, ih _ hf2 he2, allProbes, scanProbes_append]

theorem allProbes_curved_iff (l : List TopoDS_Shape) :
    (∀ p ∈ allProbes l, p.isCurved = false) ↔
      ∀ shape ∈ l, (∀ f ∈ shape.faces, f.isPlanar = true) ∧
        (∀ e ∈ shape.edges, e.isLinear = true) := by
  induction l with
  | nil => simp [allProbes]
  | cons shape rest ih =>
    simp only [allProbes, List.mem_append, List.mem_map, List.forall_mem_cons, ← ih]
    constructor
    · intro h
      refine ⟨⟨fun f hf => ?_, fun e he => ?_⟩, fun p hp => h p (Or.inr hp)⟩
      · simpa [Probe.isCurved] using h (Probe.face f) (Or.inl (Or.inl ⟨f, hf, rfl⟩))
      · simpa [Probe.isCurved] using h (Probe.edge e) (Or.inl (Or.inr ⟨e, he, rfl⟩))
    · rintro ⟨⟨hfs, hes⟩, hrest⟩ p hp
      rcases hp with (⟨f, hf, rfl⟩ | ⟨e, he, rfl⟩) | hp
      · simp [Probe.isCurved, hfs f hf]
      · simp [Probe.isCurved, hes e he]
      · exact hrest p hp

theorem exists_first_curved (l : List Probe) (h : ¬ ∀ p ∈ l, p.isCurved = false) :
    ∃ pre x post, l = pre ++ x :: post ∧ (∀ p ∈ pre, p.isCurved = false) ∧
      x.isCurved = true := by
  induction l with
  | nil => simp at h
  | cons p rest ih =>
    cases hp : p.isCurved with
    | true => exact ⟨[], p, rest, rfl, by simp, hp⟩
    | false =>
      have hrest : ¬ ∀ q ∈ rest, q.isCurved = false := by
        intro hall
        apply h
        intro q hq
        rcases List.mem_cons.mp hq with rfl | hq
        · exact hp
        · exact hall q hq
      obtain ⟨pre, x, post, hsplit, hpre, hx⟩ := ih hrest
      refine ⟨p :: pre, x, post, by simp [hsplit], ?_, hx⟩
      intro q hq
      rcases List.mem_cons.mp hq with rfl | hq
      · exact hp
      · exact hpre q hq

/-- C3. For a non-null collection whose faces all have a surface and whose edges all have
a curve, `checkFacetedBrep` returns; it returns `true` exactly when every face of every
shape is planar and every edge of every shape is linear; and the faces and edges it
examined are exactly those up to and including the first non-planar face or non-linear
edge (all of them when there is none), so nothing after it is examined. -/
theorem checkFacetedBrep_iff_faceted (l : List TopoDS_Shape)
    (hf : ∀ shape ∈ l, ∀ f ∈ shape.faces, f.surface ≠ none)
    (he : ∀ shape ∈ l, ∀ e ∈ shape.edges, e.curve ≠ none) :
    ∃ result examined, checkFacetedBrep (some l) = some (result, examined) ∧
      (result = true ↔
        ∀ shape ∈ l, (∀ f ∈ shape.faces, f.isPlanar = true) ∧
          (∀ e ∈ shape.edges, e.isLinear = true)) ∧
      (result = true → examined = allProbes l) ∧
      (∀ pre x post, allProbes l = pre ++ x :: post →
        (∀ p ∈ pre, p.isCurved = false) → x.isCurved = true →
          result = false ∧ examined = pre ++ [x]) := by
  have hrun := checkFacetedBrep.shapes_eq l { err := false, examined := [] } hf he
  by_cases hall : ∀ p ∈ allProbes l, p.isCurved = false
  · have hscan := scanProbes_clean (allProbes l) { err := false, examined := [] } rfl hall
    refine ⟨true, allProbes l, by simp [checkFacetedBrep, hrun, hscan], ?_, fun _ => rfl, ?_⟩
    · simpa using (allProbes_curved_iff l).mp hall
    · intro pre x post hsplit _ hx
      have := hall x (by simp [hsplit])
      simp [this] at hx
  · obtain ⟨pre, x, post, hsplit, hpre, hx⟩ := exists_first_curved _ hall
    have hscan := scanProbes_stop pre post x { err := false, examined := [] } rfl hpre hx
    rw [← hsplit] at hscan
    refine ⟨false, pre ++ [x], by simp [checkFacetedBrep, hrun, hscan], ?_, by simp, ?_⟩
    · simpa using fun h => hall ((allProbes_curved_iff l).mpr h)
    · intro pre2 x2 post2 hsplit2 hpre2 hx2
      have hscan2 := scanProbes_stop pre2 post2 x2 { err := false, examined := [] } rfl hpre2 hx2
      rw [← hsplit2, hscan] at hscan2
      simpa using (congrArg FacetScan.examined hscan2)

/-- Witness for C3: on the collection `[cube, ball, cube]` the check returns `false` and
examines the face and the edge of `cube` and the face of `ball`, nothing after it. -/
theorem checkFacetedBrep_iff_faceted_witness :
    ∃ result examined, checkFacetedBrep (some [cube, ball, cube]) = some (result, examined) ∧
      (result = true ↔
        ∀ shape ∈ [cube, ball, cube], (∀ f ∈ shape.faces, f.isPlanar = true) ∧
          (∀ e ∈ shape.edges, e.isLinear = true)) ∧
      (result = true → examined = allProbes [cube, ball, cube]) ∧
      (∀ pre x post, allProbes [cube, ball, cube] = pre ++ x :: post →
        (∀ p ∈ pre, p.isCurved = false) → x.isCurved = true →
          result = false ∧ examined = pre ++ [x]) :=
  checkFacetedBrep_iff_faceted [cube, ball, cube] (by decide) (by decide)

/-! ## Shape harvesting -/

theorem getShapes.loop_some (objs : List AIS_InteractiveObject) (l : List TopoDS_Shape) :
    getShapes.loop objs (some l) = some (l ++ objs.filterMap AIS_InteractiveObject.shapeOf) := by
  induction objs generalizing l with
  | nil => simp [getShapes.loop]
  | cons obj rest ih =>
    cases obj with
    | aisShape shape => simp [getShapes.loop, ih, AIS_InteractiveObject.shapeOf]
    | nonShape tag => simp [getShapes.loop, ih, AIS_InteractiveObject.shapeOf]

theorem getShapes.loop_none (objs : List AIS_InteractiveObject) :
    getShapes.loop objs none =
      if objs.filterMap AIS_InteractiveObject.shapeOf = [] then none
      else some (objs.filterMap AIS_InteractiveObject.shapeOf) := by
  induction objs with
  | nil => simp [getShapes.loop]
  | cons obj rest ih =>
    cases obj with
    | aisShape shape =>
      simp [getShapes.loop, getShapes.loop_some, AIS_InteractiveObject.shapeOf]
    | nonShape tag => simp [getShapes.loop, ih, AIS_InteractiveObject.shapeOf]

/-- C10. `getShapes` returns the shapes of exactly the selected objects that are
`AIS_Shape`, one entry per such object and in selection order; when there is none (an
empty selection included) it returns the null handle, not an empty sequence, and
`exportModel( fileName, format, ic )` then returns `false` leaving the world untouched:
no kernel call is made, so no writer is dispatched to. -/
theorem getShapes_harvests_selected_shapes (ic : AIS_InteractiveContext) :
    (getShapes ic =
      if ic.current.filterMap AIS_InteractiveObject.shapeOf = [] then none
      else some (ic.current.filterMap AIS_InteractiveObject.shapeOf)) ∧
    getShapes ic ≠ some [] ∧
    ∀ (κ : Type) (E : Env κ) (fileName : String) (format : FileFormat) (s : World κ),
      ic.current.filterMap AIS_InteractiveObject.shapeOf = [] →
        getShapes ic = none ∧
          exportModelIC E fileName format ic s = (.returned false, s) := by
  have h := getShapes.loop_none ic.current
  refine ⟨h, ?_, ?_⟩
  · unfold getShapes
    rw [h]
    split <;> simp_all
  · intro κ E fileName format s hnone
    have hg : getShapes ic = none := by
      unfold getShapes
      rw [h, if_pos hnone]
    exact ⟨hg, by simp [exportModelIC, hg, Adapter.pure_apply]⟩


/-! ## Defects shown by evaluation -/

/-- C1 (defect). With the legacy-binary tag the export of a null or of an empty collection
returns `true`: the guard of `exportCSFDB` is compiled out with the rest of its body.
The world is untouched, so no kernel writer is invoked. -/
theorem exportModel_CSFDB_null_or_empty_returns_true :
    ∀ (κ : Type) (E : Env κ) (file : String) (s : World κ),
      exportModel E .FormatCSFDB file none s = (.returned true, s) ∧
      exportModel E .FormatCSFDB file (some []) s = (.returned true, s) :=
  fun _ _ _ _ => ⟨rfl, rfl⟩

theorem Adapter.bind_ne_returned_false {κ α : Type} (m : Adapter κ α)
    (f : α → Adapter κ Bool) (s : World κ)
    (hf : ∀ a s1, (f a s1).1 ≠ .returned false) : ((m >>= f) s).1 ≠ .returned false := by
  rw [Adapter.bind_apply]
  rcases m s with ⟨r, s1⟩
  cases r with
  | raised e => intro h; cases h
  | returned a => exact hf a s1

theorem importMesh_ne_returned_false {κ : Type} (E : Env κ) (fileName : String)
    (format : FileFormat) (ic : AIS_InteractiveContext) (s : World κ) :
    (importMesh E fileName format ic s).1 ≠ .returned false := by
  unfold importMesh
  refine Adapter.bind_ne_returned_false _ _ _ fun _ _ => ?_
  iterate 11 refine Adapter.bind_ne_returned_false _ _ _ fun _ _ => ?_
  intro h
  cases h

/-- C2 (defect). An STL import through `importModel( fileName, format, ic )` returns
`true` when the kernel's STL reader reports failure (a null triangulation), and lets the
exception escape, with the override cursor still set, when the reader raises
`Standard_Failure`; under no kernel does `importMesh` return `false`. -/
theorem importModelIC_STL_ignores_reader_failure :
    (importModelIC stlFailingEnv "missing.stl" .FormatSTL { current := [] } world0).1 =
        .returned true ∧
    (importModelIC stlRaisingEnv "missing.stl" .FormatSTL { current := [] } world0).1 =
        .raised { message := "RWStl::ReadFile" } ∧
    (importModelIC stlRaisingEnv "missing.stl" .FormatSTL { current := [] } world0).2.trace =
        [KEvent.stlReadFile "missing.stl" (.raised { message := "RWStl::ReadFile" })] ∧
    (importModelIC stlRaisingEnv "missing.stl" .FormatSTL
        { current := [] } world0).2.overrideCursor = 1 ∧
    ∀ (κ : Type) (E : Env κ) (fileName : String) (format : FileFormat)
      (ic : AIS_InteractiveContext) (s : World κ),
      (importMesh E fileName format ic s).1 ≠ .returned false :=
  ⟨by decide, by decide, by decide, by decide,
    fun _ E fileName format ic s => importMesh_ne_returned_false E fileName format ic s⟩

/-- C5 (defect). An IGES export of `[ball, cube]` on a kernel whose `AddShape` rejects
`ball`: the rejection is not looked at, `cube` is still added, the model is computed, the
file writer is invoked and the export returns `true`. -/
theorem exportModel_IGES_ignores_AddShape_failure :
    exportModel igesRejectBallEnv .FormatIGES "out.igs" (some [ball, cube]) world0 =
      (.returned true,
        { world0 with
          trace :=
            [ KEvent.perform .igesControllerInit (.returned ()),
              KEvent.perform .igesWriterNew (.returned ()),
              KEvent.igesAddShape ball (.returned false),
              KEvent.igesAddShape cube (.returned true),
              KEvent.perform .igesComputeModel (.returned ()),
              KEvent.igesWrite "out.igs" (.returned true) ] }) := by
  rfl

/-! ## Exceptions are caught at the export boundary -/

theorem honest_pure {κ α : Type} (a : α) : Honest (pure a : Adapter κ α) :=
  fun s => ⟨[], by simp [Adapter.pure_apply], fun _ _ ev hev => by simp at hev⟩

theorem honest_setInfo {κ : Type} (msg : String) : Honest (setInfo msg : Adapter κ Unit) :=
  fun s => ⟨[], by simp [Qocc.setInfo], fun _ _ ev hev => by simp at hev⟩

theorem honest_kcall {κ α : Type} (ev : Outcome α → KEvent) (op : κ → Outcome α × κ)
    (hev : ∀ r, (ev r).isRaised = r.isRaised) : Honest (kcall ev op) := by
  intro s
  refine ⟨[ev (op s.kernel).1], by simp [Qocc.kcall], ?_⟩
  intro a ha e he
  have hr : (op s.kernel).1 = .returned a := by simpa [Qocc.kcall] using ha
  rw [List.mem_singleton] at he
  rw [he, hev, hr]
  rfl

theorem honest_kvoid {κ : Type} (E : Env κ) (c : VoidCall) : Honest (kvoid E c) :=
  honest_kcall _ _ (fun _ => rfl)

theorem honest_bind {κ α β : Type} {m : Adapter κ α} {f : α → Adapter κ β}
    (hm : Honest m) (hf : ∀ a, Honest (f a)) : Honest (m >>= f) := by
  intro s
  obtain ⟨evs1, ht1, hq1⟩ := hm s
  rw [Adapter.bind_apply]
  rcases hms : m s with ⟨r, s1⟩
  rw [hms] at ht1 hq1
  cases r with
  | raised e => exact ⟨evs1, ht1, fun a ha => by cases ha⟩
  | returned a =>
    obtain ⟨evs2, ht2, hq2⟩ := hf a s1
    refine ⟨evs1 ++ evs2, ?_, ?_⟩
    · simp only at ht1 ⊢
      rw [ht2, ht1, List.append_assoc]
    · intro b hb ev hev
      rcases List.mem_append.mp hev with h | h
      · exact hq1 a rfl ev h
      · exact hq2 b hb ev h

theorem honest_ite {κ α : Type} (c : Prop) [Decidable c] {m1 m2 : Adapter κ α}
    (h1 : Honest m1) (h2 : Honest m2) : Honest (if c then m1 else m2) := by
  split
  · exact h1
  · exact h2

theorem honest_exportBREP {κ : Type} (E : Env κ) (file : String)
    (shapes : Handle_TopTools_HSequenceOfShape) : Honest (exportBREP E file shapes) := by
  unfold Qocc.exportBREP
  split
  · exact honest_pure _
  · exact honest_pure _
  · exact honest_kcall _ _ (fun _ => rfl)

theorem honest_addShapes {κ : Type} (E : Env κ) (l : List TopoDS_Shape) :
    Honest (exportIGES.addShapes E l) := by
  induction l with
  | nil => exact honest_pure _
  | cons shape rest ih =>
    unfold exportIGES.addShapes
    exact honest_bind (honest_kcall _ _ (fun _ => rfl)) (fun _ => ih)

theorem honest_exportIGES {κ : Type} (E : Env κ) (file : String)
    (shapes : Handle_TopTools_HSequenceOfShape) : Honest (exportIGES E file shapes) := by
  unfold Qocc.exportIGES
  split
  · exact honest_pure _
  · exact honest_pure _
  · exact honest_bind (honest_kvoid _ _) fun _ =>
      honest_bind (honest_kvoid _ _) fun _ =>
        honest_bind (honest_addShapes _ _) fun _ =>
          honest_bind (honest_kvoid _ _) fun _ => honest_kcall _ _ (fun _ => rfl)

theorem honest_transfer {κ : Type} (E : Env κ) (l : List TopoDS_Shape) :
    Honest (exportSTEP.transfer E l) := by
  induction l with
  | nil => exact honest_pure _
  | cons shape rest ih =>
    unfold exportSTEP.transfer
    exact honest_bind (honest_kcall _ _ (fun _ => rfl)) (fun _ => honest_ite _ (honest_pure _) ih)

theorem honest_report {κ : Type} (E : Env κ) (status : IFSelect_ReturnStatus) :
    Honest (exportSTEP.report E status) := by
  unfold exportSTEP.report
  split
  · exact honest_setInfo _
  · exact honest_setInfo _
  · exact honest_setInfo _
  · exact honest_pure _

theorem honest_exportSTEP {κ : Type} (E : Env κ) (file : String)
    (shapes : Handle_TopTools_HSequenceOfShape) : Honest (exportSTEP E file shapes) := by
  unfold Qocc.exportSTEP
  split
  · exact honest_pure _
  · exact honest_pure _
  · exact honest_bind (honest_kvoid _ _) fun _ =>
      honest_bind (honest_transfer _ _) fun _ =>
        honest_ite _
          (honest_bind (honest_kcall _ _ (fun _ => rfl)) fun _ =>
            honest_bind (honest_report _ _) fun _ => honest_pure _)
          (honest_pure _)

theorem honest_addAll {κ : Type} (E : Env κ) (l : List TopoDS_Shape) :
    Honest (exportCompound.addAll E l) := by
  induction l with
  | nil => exact honest_pure _
  | cons shape rest ih =>
    unfold exportCompound.addAll
    exact honest_ite _ (honest_bind (honest_setInfo _) fun _ => honest_pure _)
      (honest_bind (honest_kvoid _ _) fun _ => ih)

theorem honest_exportSTL {κ : Type} (E : Env κ) (file : String)
    (shapes : Handle_TopTools_HSequenceOfShape) : Honest (exportSTL E file shapes) := by
  unfold Qocc.exportSTL
  split
  · exact honest_pure _
  · exact honest_pure _
  · exact honest_bind (honest_kvoid _ _) fun _ =>
      honest_bind (honest_addAll _ _) fun _ =>
        honest_ite _ (honest_bind (honest_kvoid _ _) fun _ => honest_pure _) (honest_pure _)

theorem honest_exportVRML {κ : Type} (E : Env κ) (file : String)
    (shapes : Handle_TopTools_HSequenceOfShape) : Honest (exportVRML E file shapes) := by
  unfold Qocc.exportVRML
  split
  · exact honest_pure _
  · exact honest_pure _
  · exact honest_bind (honest_kvoid _ _) fun _ =>
      honest_bind (honest_addAll _ _) fun _ =>
        honest_ite _ (honest_bind (honest_kvoid _ _) fun _ => honest_pure _) (honest_pure _)

theorem honest_exportDispatch {κ : Type} (E : Env κ) (format : FileFormat) (file : String)
    (shapes : Handle_TopTools_HSequenceOfShape) :
    Honest (exportModel.dispatch E format file shapes) := by
  cases format
  · exact honest_exportBREP E file shapes
  · exact honest_exportIGES E file shapes
  · exact honest_exportSTEP E file shapes
  · exact honest_pure _
  · exact honest_exportSTL E file shapes
  · exact honest_exportVRML E file shapes

/-- C8. Whatever the format, file and collection: when one of the kernel calls made during
`exportModel( format, file, shapes )` raises `Standard_Failure`, the call still returns
normally (the exception does not escape) and its result is `false`. -/
theorem exportModel_catches_kernel_exception {κ : Type} (E : Env κ) (format : FileFormat)
    (file : String) (shapes : Handle_TopTools_HSequenceOfShape) (s : World κ)
    (evs : List KEvent)
    (htrace : (exportModel E format file shapes s).2.trace = s.trace ++ evs)
    (hraised : ∃ ev ∈ evs, ev.isRaised = true) :
    (exportModel E format file shapes s).1 = .returned false := by
  obtain ⟨evs1, ht1, hq1⟩ := honest_exportDispatch E format file shapes s
  unfold exportModel Adapter.tryCatch at htrace ⊢
  rcases hrun : exportModel.dispatch E format file shapes s with ⟨r, s1⟩
  rw [hrun] at ht1 hq1 htrace
  cases r with
  | raised e => simp [hrun, Adapter.pure_apply]
  | returned a =>
    exfalso
    simp only at htrace ht1
    have hevs : evs1 = evs := List.append_cancel_left (ht1.symm.trans htrace)
    obtain ⟨ev, hmem, hr⟩ := hraised
    have := hq1 a rfl ev (hevs ▸ hmem)
    rw [this] at hr
    cases hr

/-- Witness for C8: a BREP export on a kernel whose `BRepTools::Write` raises. -/
theorem exportModel_catches_kernel_exception_witness :
    (exportModel brepWriteRaisingEnv .FormatBREP "out.brep" (some [cube]) world0).2.trace =
      world0.trace ++
        [KEvent.brepWrite cube "out.brep" (.raised { message := "BRepTools::Write" })] ∧
    (exportModel brepWriteRaisingEnv .FormatBREP "out.brep" (some [cube]) world0).1 =
      .returned false :=
  ⟨by decide,
    exportModel_catches_kernel_exception brepWriteRaisingEnv .FormatBREP "out.brep"
      (some [cube]) world0
      [KEvent.brepWrite cube "out.brep" (.raised { message := "BRepTools::Write" })]
      (by decide) ⟨_, List.mem_singleton.mpr rfl, by decide⟩⟩

/-! ## STEP export: the diagnostic message -/

theorem exportSTEP.transfer_spec {κ : Type} (E : Env κ) (l : List TopoDS_Shape)
    (s : World κ) :
    ∃ evs, (exportSTEP.transfer E l s).2.trace = s.trace ++ evs ∧
      (exportSTEP.transfer E l s).2.myInfo = s.myInfo ∧
      ((exportSTEP.transfer E l s).1 = .returned false →
        ∃ pre x st, evs = pre ++ [KEvent.stepTransfer x (.returned st)] ∧
          st ≠ .IFSelect_RetDone) := by
  induction l generalizing s with
  | nil => exact ⟨[], by simp [exportSTEP.transfer, Adapter.pure_apply], rfl,
      fun h => by simp [exportSTEP.transfer, Adapter.pure_apply] at h⟩
  | cons shape rest ih =>
    unfold exportSTEP.transfer
    rw [Adapter.bind_apply, kcall_apply]
    rcases hk : E.stepTransfer shape s.kernel with ⟨r, k⟩
    cases r with
    | raised e =>
      exact ⟨[KEvent.stepTransfer shape (.raised e)], rfl, rfl, fun h => by cases h⟩
    | returned st =>
      by_cases hst : st = .IFSelect_RetDone
      · subst hst
        obtain ⟨evs, ht, hi, hf⟩ := ih
          { s with kernel := k
                   trace := s.trace ++
                    [KEvent.stepTransfer shape (.returned .IFSelect_RetDone)] }
        refine ⟨KEvent.stepTransfer shape (.returned .IFSelect_RetDone) :: evs, ?_, ?_, ?_⟩
        · simpa using ht
        · simpa using hi
        · intro h
          obtain ⟨pre, x, st, hevs, hne⟩ := hf (by simpa using h)
          exact ⟨KEvent.stepTransfer shape (.returned .IFSelect_RetDone) :: pre, x, st,
            by simp [hevs], hne⟩
      · refine ⟨[KEvent.stepTransfer shape (.returned st)], ?_, ?_, ?_⟩
        · simp [hst, Adapter.pure_apply]
        · simp [hst, Adapter.pure_apply]
        · intro _
          exact ⟨[], shape, st, rfl, hst⟩

/-- C4 (amended). When `exportSTEP` returns `false` on a non-empty collection, the last
kernel call it made is either the writer's `Write`, with a status other than done, or the
`Transfer` of one shape, with a status other than done.  In the first case `myInfo` is
determined by the status alone: `INF_DATA_ERROR` for error, `INF_WRITING_ERROR` for fail,
`INF_NOTHING_ERROR` for void, and unchanged for stop.  In the second case `myInfo` is
unchanged. -/
theorem exportSTEP_failure_message {κ : Type} (E : Env κ) (file : String)
    (shape : TopoDS_Shape) (rest : List TopoDS_Shape) (s s' : World κ)
    (h : exportSTEP E file (some (shape :: rest)) s = (.returned false, s')) :
    ∃ pre last, s'.trace = s.trace ++ pre ++ [last] ∧
      ((∃ st, last = KEvent.stepWrite (E.toLatin1 file) (.returned st) ∧
          ((st = .IFSelect_RetError ∧ s'.myInfo = E.tr "INF_DATA_ERROR") ∨
           (st = .IFSelect_RetFail ∧ s'.myInfo = E.tr "INF_WRITING_ERROR") ∨
           (st = .IFSelect_RetVoid ∧ s'.myInfo = E.tr "INF_NOTHING_ERROR") ∨
           (st = .IFSelect_RetStop ∧ s'.myInfo = s.myInfo))) ∨
       (∃ x st, last = KEvent.stepTransfer x (.returned st) ∧ st ≠ .IFSelect_RetDone ∧
          s'.myInfo = s.myInfo)) := by
  unfold exportSTEP at h
  simp only [Adapter.bind_apply, kvoid_apply] at h
  rcases hp : E.perform .stepWriterNew s.kernel with ⟨r0, k0⟩
  rw [hp] at h
  cases r0 with
  | raised e => simp at h
  | returned u =>
    simp only at h
    obtain ⟨evs, ht, hi, hf⟩ := exportSTEP.transfer_spec E (shape :: rest)
      { s with kernel := k0
               trace := s.trace ++ [KEvent.perform .stepWriterNew (.returned u)] }
    rcases hrun : exportSTEP.transfer E (shape :: rest)
      { s with kernel := k0
               trace := s.trace ++ [KEvent.perform .stepWriterNew (.returned u)] }
      with ⟨r1, s1⟩
    rw [hrun] at h ht hi hf
    simp only at ht hi hf
    cases r1 with
    | raised e => simp at h
    | returned done =>
      cases done with
      | false =>
        simp [Adapter.pure_apply] at h
        subst h
        obtain ⟨pre, x, st, hevs, hne⟩ := hf rfl
        refine ⟨KEvent.perform .stepWriterNew (.returned u) :: pre, _, ?_,
          Or.inr ⟨x, st, rfl, hne, hi⟩⟩
        rw [ht, hevs]
        simp
      | true =>
        simp only [if_true, Adapter.bind_apply, kcall_apply] at h
        rcases hw : E.stepWrite (E.toLatin1 file) s1.kernel with ⟨r2, k2⟩
        rw [hw] at h
        cases r2 with
        | raised e => simp at h
        | returned st =>
          refine ⟨KEvent.perform .stepWriterNew (.returned u) :: evs,
            KEvent.stepWrite (E.toLatin1 file) (.returned st), ?_, Or.inl ⟨st, rfl, ?_⟩⟩
          · cases st <;>
              simp [exportSTEP.report, setInfo_apply, Adapter.pure_apply] at h <;>
              (rw [← h]; simp [ht])
          · cases st <;>
              simp [exportSTEP.report, setInfo_apply, Adapter.pure_apply] at h <;>
              (rw [← h]; simp [hi])

/-- Witness for C4 (amended): `Write` reports error, the message is `INF_DATA_ERROR`. -/
theorem exportSTEP_failure_message_witness :
    ∃ pre last,
      (exportSTEP stepWriteErrorEnv "out.step" (some [cube, ball]) world0).2.trace =
        world0.trace ++ pre ++ [last] ∧
      ((∃ st, last = KEvent.stepWrite (stepWriteErrorEnv.toLatin1 "out.step") (.returned st) ∧
          ((st = .IFSelect_RetError ∧
              (exportSTEP stepWriteErrorEnv "out.step" (some [cube, ball]) world0).2.myInfo =
                stepWriteErrorEnv.tr "INF_DATA_ERROR") ∨
           (st = .IFSelect_RetFail ∧
              (exportSTEP stepWriteErrorEnv "out.step" (some [cube, ball]) world0).2.myInfo =
                stepWriteErrorEnv.tr "INF_WRITING_ERROR") ∨
           (st = .IFSelect_RetVoid ∧
              (exportSTEP stepWriteErrorEnv "out.step" (some [cube, ball]) world0).2.myInfo =
                stepWriteErrorEnv.tr "INF_NOTHING_ERROR") ∨
           (st = .IFSelect_RetStop ∧
              (exportSTEP stepWriteErrorEnv "out.step" (some [cube, ball]) world0).2.myInfo =
                world0.myInfo))) ∨
       (∃ x st, last = KEvent.stepTransfer x (.returned st) ∧ st ≠ .IFSelect_RetDone ∧
          (exportSTEP stepWriteErrorEnv "out.step" (some [cube, ball]) world0).2.myInfo =
            world0.myInfo)) :=
  exportSTEP_failure_message stepWriteErrorEnv "out.step" cube [ball] world0 _ rfl

/-- Counterexample to C4 as stated: `Transfer` of the only shape reports fail, `exportSTEP`
returns `false`, and `myInfo` still holds what it held before the call (here the empty
string), which is none of the three diagnostic messages. -/
theorem exportSTEP_transfer_failure_leaves_message :
    (exportSTEP stepTransferFailEnv "out.step" (some [cube]) world0).1 = .returned false ∧
    (exportSTEP stepTransferFailEnv "out.step" (some [cube]) world0).2.myInfo = "" ∧
    ¬ ((exportSTEP stepTransferFailEnv "out.step" (some [cube]) world0).2.myInfo ∈
        [stepTransferFailEnv.tr "INF_DATA_ERROR", stepTransferFailEnv.tr "INF_WRITING_ERROR",
          stepTransferFailEnv.tr "INF_NOTHING_ERROR"]) := by
  decide

/-! ## The message field outside STEP export -/

theorem keepsInfo_pure {κ α : Type} (a : α) : KeepsInfo (pure a : Adapter κ α) :=
  fun _ => rfl

theorem keepsInfo_kcall {κ α : Type} (ev : Outcome α → KEvent) (op : κ → Outcome α × κ) :
    KeepsInfo (kcall ev op) :=
  fun _ => rfl

theorem keepsInfo_bind {κ α β : Type} {m : Adapter κ α} {f : α → Adapter κ β}
    (hm : KeepsInfo m) (hf : ∀ a, KeepsInfo (f a)) : KeepsInfo (m >>= f) := by
  intro s
  have h1 := hm s
  rw [Adapter.bind_apply]
  rcases hms : m s with ⟨r, s1⟩
  rw [hms] at h1
  cases r with
  | raised e => exact h1
  | returned a => exact (hf a s1).trans h1

theorem keepsInfo_ite {κ α : Type} (c : Prop) [Decidable c] {m1 m2 : Adapter κ α}
    (h1 : KeepsInfo m1) (h2 : KeepsInfo m2) : KeepsInfo (if c then m1 else m2) := by
  split
  · exact h1
  · exact h2

theorem keepsInfo_tryCatch {κ α : Type} {m h : Adapter κ α}
    (hm : KeepsInfo m) (hh : KeepsInfo h) : KeepsInfo (Adapter.tryCatch m h) := by
  intro s
  have h1 := hm s
  unfold Adapter.tryCatch
  rcases hms : m s with ⟨r, s1⟩
  rw [hms] at h1
  cases r with
  | raised e => exact (hh s1).trans h1
  | returned a => exact h1

theorem keepsInfo_exportBREP {κ : Type} (E : Env κ) (file : String)
    (shapes : Handle_TopTools_HSequenceOfShape) : KeepsInfo (exportBREP E file shapes) := by
  unfold Qocc.exportBREP
  split
  · exact keepsInfo_pure _
  · exact keepsInfo_pure _
  · exact keepsInfo_kcall _ _

theorem keepsInfo_addShapes {κ : Type} (E : Env κ) (l : List TopoDS_Shape) :
    KeepsInfo (exportIGES.addShapes E l) := by
  induction l with
  | nil => exact keepsInfo_pure _
  | cons shape rest ih =>
    unfold exportIGES.addShapes
    exact keepsInfo_bind (keepsInfo_kcall _ _) (fun _ => ih)

theorem keepsInfo_exportIGES {κ : Type} (E : Env κ) (file : String)
    (shapes : Handle_TopTools_HSequenceOfShape) : KeepsInfo (exportIGES E file shapes) := by
  unfold Qocc.exportIGES
  split
  · exact keepsInfo_pure _
  · exact keepsInfo_pure _
  · exact keepsInfo_bind (keepsInfo_kcall _ _) fun _ =>
      keepsInfo_bind (keepsInfo_kcall _ _) fun _ =>
        keepsInfo_bind (keepsInfo_addShapes _ _) fun _ =>
          keepsInfo_bind (keepsInfo_kcall _ _) fun _ => keepsInfo_kcall _ _

theorem exportCompound.addAll_info {κ : Type} (E : Env κ) (l : List TopoDS_Shape)
    (s : World κ) :
    ((∀ x ∈ l, x.isNull = false) → (exportCompound.addAll E l s).2.myInfo = s.myInfo) ∧
    ((exportCompound.addAll E l s).2.myInfo = s.myInfo ∨
      ((∃ x ∈ l, x.isNull = true) ∧
        (exportCompound.addAll E l s).2.myInfo = E.tr "INF_TRANSLATE_ERROR_INVALIDSHAPE" ∧
        (exportCompound.addAll E l s).1 = .returned false)) := by
  induction l generalizing s with
  | nil => exact ⟨fun _ => rfl, Or.inl rfl⟩
  | cons shape rest ih =>
    unfold exportCompound.addAll
    cases hnull : shape.isNull with
    | true =>
      refine ⟨fun h => ?_, Or.inr ⟨⟨shape, List.mem_cons_self _ _, hnull⟩, ?_, ?_⟩⟩
      · have := h shape (List.mem_cons_self _ _)
        rw [hnull] at this
        cases this
      · simp [Adapter.bind_apply, setInfo_apply, Adapter.pure_apply]
      · simp [Adapter.bind_apply, setInfo_apply, Adapter.pure_apply]
    | false =>
      simp only [Bool.false_eq_true, if_false, Adapter.bind_apply, kvoid_apply]
      rcases hk : E.perform (.builderAdd shape) s.kernel with ⟨r, k⟩
      cases r with
      | raised e => exact ⟨fun _ => rfl, Or.inl rfl⟩
      | returned u =>
        obtain ⟨h1, h2⟩ := ih
          { s with kernel := k
                   trace := s.trace ++
                    [KEvent.perform (.builderAdd shape) (.returned u)] }
        refine ⟨fun h => h1 (fun x hx => h x (List.mem_cons_of_mem _ hx)), ?_⟩
        rcases h2 with h2 | ⟨⟨x, hx, hxn⟩, h3, h4⟩
        · exact Or.inl h2
        · exact Or.inr ⟨⟨x, List.mem_cons_of_mem _ hx, hxn⟩, h3, h4⟩

/-- The body shared by `exportSTL` and `exportVRML`, for a non-empty sequence `l` and the
writer call `w`: the message is untouched when no shape is null; otherwise it is either
untouched or the invalid-shape message, the latter together with the result `false`. -/
theorem exportCompound.body_info {κ : Type} (E : Env κ) (l : List TopoDS_Shape)
    (w : VoidCall) (s : World κ) :
    ((∀ x ∈ l, x.isNull = false) →
      ((kvoid E .makeCompound >>= fun _ =>
          exportCompound.addAll E l >>= fun added =>
            if added = true then (kvoid E w >>= fun _ => pure true) else pure false) s).2.myInfo
        = s.myInfo) ∧
    (((kvoid E .makeCompound >>= fun _ =>
          exportCompound.addAll E l >>= fun added =>
            if added = true then (kvoid E w >>= fun _ => pure true) else pure false) s).2.myInfo
        = s.myInfo ∨
      ((∃ x ∈ l, x.isNull = true) ∧
        ((kvoid E .makeCompound >>= fun _ =>
          exportCompound.addAll E l >>= fun added =>
            if added = true then (kvoid E w >>= fun _ => pure true) else pure false) s).2.myInfo
          = E.tr "INF_TRANSLATE_ERROR_INVALIDSHAPE" ∧
        ((kvoid E .makeCompound >>= fun _ =>
          exportCompound.addAll E l >>= fun added =>
            if added = true then (kvoid E w >>= fun _ => pure true) else pure false) s).1
          = .returned false)) := by
  rw [Adapter.bind_apply, kvoid_apply]
  rcases hk : E.perform .makeCompound s.kernel with ⟨r, k⟩
  cases r with
  | raised e => exact ⟨fun _ => rfl, Or.inl rfl⟩
  | returned u =>
    simp only [Adapter.bind_apply]
    obtain ⟨h1, h2⟩ := exportCompound.addAll_info E l
      { s with kernel := k, trace := s.trace ++ [KEvent.perform .makeCompound (.returned u)] }
    rcases hrun : exportCompound.addAll E l
      { s with kernel := k, trace := s.trace ++ [KEvent.perform .makeCompound (.returned u)] }
      with ⟨r1, s1⟩
    rw [hrun] at h1 h2
    simp only at h1 h2
    cases r1 with
    | raised e =>
      refine ⟨h1, ?_⟩
      rcases h2 with h2 | ⟨_, _, h4⟩
      · exact Or.inl h2
      · cases h4
    | returned added =>
      cases added with
      | false =>
        simp only [Bool.false_eq_true, if_false, Adapter.pure_apply]
        refine ⟨h1, ?_⟩
        rcases h2 with h2 | ⟨h3, h4, _⟩
        · exact Or.inl h2
        · exact Or.inr ⟨h3, h4, trivial⟩
      | true =>
        have h3 : s1.myInfo = s.myInfo := by
          rcases h2 with h2 | ⟨_, _, h4⟩
          · exact h2
          · cases h4
        simp only [if_true, Adapter.bind_apply, kvoid_apply, Adapter.pure_apply]
        rcases hw : E.perform w s1.kernel with ⟨r2, k2⟩
        cases r2 with
        | raised e => exact ⟨fun _ => h3, Or.inl h3⟩
        | returned u2 => exact ⟨fun _ => h3, Or.inl h3⟩

theorem exportCompound.caught_info {κ : Type} (E : Env κ) (l : List TopoDS_Shape)
    (w : VoidCall) (s : World κ) :
    ((∀ x ∈ l, x.isNull = false) →
      (Adapter.tryCatch (kvoid E .makeCompound >>= fun _ =>
          exportCompound.addAll E l >>= fun added =>
            if added = true then (kvoid E w >>= fun _ => pure true) else pure false)
        (pure false) s).2.myInfo = s.myInfo) ∧
    ((Adapter.tryCatch (kvoid E .makeCompound >>= fun _ =>
          exportCompound.addAll E l >>= fun added =>
            if added = true then (kvoid E w >>= fun _ => pure true) else pure false)
        (pure false) s).2.myInfo = s.myInfo ∨
      ((∃ x ∈ l, x.isNull = true) ∧
        (Adapter.tryCatch (kvoid E .makeCompound >>= fun _ =>
          exportCompound.addAll E l >>= fun added =>
            if added = true then (kvoid E w >>= fun _ => pure true) else pure false)
        (pure false) s).2.myInfo = E.tr "INF_TRANSLATE_ERROR_INVALIDSHAPE" ∧
        (Adapter.tryCatch (kvoid E .makeCompound >>= fun _ =>
          exportCompound.addAll E l >>= fun added =>
            if added = true then (kvoid E w >>= fun _ => pure true) else pure false)
        (pure false) s).1 = .returned false)) := by
  obtain ⟨h1, h2⟩ := exportCompound.body_info E l w s
  unfold Adapter.tryCatch
  rcases hrun : (kvoid E .makeCompound >>= fun _ =>
          exportCompound.addAll E l >>= fun added =>
            if added = true then (kvoid E w >>= fun _ => pure true) else pure false) s
    with ⟨r, s1⟩
  rw [hrun] at h1 h2
  cases r with
  | raised e =>
    refine ⟨h1, ?_⟩
    rcases h2 with h2 | ⟨_, _, h4⟩
    · exact Or.inl h2
    · cases h4
  | returned a => exact ⟨h1, h2⟩

/-- C9 (amended). For every format other than STEP, `exportModel( format, file, shapes )`
leaves `myInfo` unchanged whenever, for STL and VRML, no shape of the collection is null.
The only other outcome is an STL or VRML export of a collection that holds a null shape:
then `myInfo` is `INF_TRANSLATE_ERROR_INVALIDSHAPE` and the result is `false`. -/
theorem exportModel_message_frame {κ : Type} (E : Env κ) (format : FileFormat)
    (file : String) (shapes : Handle_TopTools_HSequenceOfShape) (s : World κ)
    (hformat : format ≠ .FormatSTEP) :
    (((format = .FormatSTL ∨ format = .FormatVRML) →
        ∀ l, shapes = some l → ∀ x ∈ l, x.isNull = false) →
      (exportModel E format file shapes s).2.myInfo = s.myInfo) ∧
    ((exportModel E format file shapes s).2.myInfo = s.myInfo ∨
      ((format = .FormatSTL ∨ format = .FormatVRML) ∧
        (∃ l x, shapes = some l ∧ x ∈ l ∧ x.isNull = true) ∧
        (exportModel E format file shapes s).2.myInfo =
          E.tr "INF_TRANSLATE_ERROR_INVALIDSHAPE" ∧
        (exportModel E format file shapes s).1 = .returned false)) := by
  cases format with
  | FormatSTEP => exact absurd rfl hformat
  | FormatBREP =>
    have h := keepsInfo_tryCatch (keepsInfo_exportBREP E file shapes)
      (keepsInfo_pure false) s
    exact ⟨fun _ => h, Or.inl h⟩
  | FormatIGES =>
    have h := keepsInfo_tryCatch (keepsInfo_exportIGES E file shapes)
      (keepsInfo_pure false) s
    exact ⟨fun _ => h, Or.inl h⟩
  | FormatCSFDB => exact ⟨fun _ => rfl, Or.inl rfl⟩
  | FormatSTL =>
    rcases shapes with _ | _ | ⟨shape, rest⟩
    · exact ⟨fun _ => rfl, Or.inl rfl⟩
    · exact ⟨fun _ => rfl, Or.inl rfl⟩
    · obtain ⟨h1, h2⟩ :=
        exportCompound.caught_info E (shape :: rest) (.stlWrite (E.toLatin1 file)) s
      refine ⟨fun h => h1 (h (Or.inl rfl) _ rfl), ?_⟩
      rcases h2 with h2 | ⟨⟨x, hx, hn⟩, h3, h4⟩
      · exact Or.inl h2
      · exact Or.inr ⟨Or.inl rfl, ⟨_, x, rfl, hx, hn⟩, h3, h4⟩
  | FormatVRML =>
    rcases shapes with _ | _ | ⟨shape, rest⟩
    · exact ⟨fun _ => rfl, Or.inl rfl⟩
    · exact ⟨fun _ => rfl, Or.inl rfl⟩
    · obtain ⟨h1, h2⟩ :=
        exportCompound.caught_info E (shape :: rest) (.vrmlWrite (E.toLatin1 file)) s
      refine ⟨fun h => h1 (h (Or.inr rfl) _ rfl), ?_⟩
      rcases h2 with h2 | ⟨⟨x, hx, hn⟩, h3, h4⟩
      · exact Or.inl h2
      · exact Or.inr ⟨Or.inr rfl, ⟨_, x, rfl, hx, hn⟩, h3, h4⟩

/-- Witness for C9 (amended): an IGES export leaves the message alone. -/
theorem exportModel_message_frame_witness :
    (((FileFormat.FormatIGES = .FormatSTL ∨ FileFormat.FormatIGES = .FormatVRML) →
        ∀ l, some [cube, nullShape] = some l → ∀ x ∈ l, x.isNull = false) →
      (exportModel scriptedEnv .FormatIGES "out.igs" (some [cube, nullShape]) world0).2.myInfo
        = world0.myInfo) ∧
    ((exportModel scriptedEnv .FormatIGES "out.igs" (some [cube, nullShape]) world0).2.myInfo
        = world0.myInfo ∨
      ((FileFormat.FormatIGES = .FormatSTL ∨ FileFormat.FormatIGES = .FormatVRML) ∧
        (∃ l x, some [cube, nullShape] = some l ∧ x ∈ l ∧ x.isNull = true) ∧
        (exportModel scriptedEnv .FormatIGES "out.igs" (some [cube, nullShape]) world0).2.myInfo
          = scriptedEnv.tr "INF_TRANSLATE_ERROR_INVALIDSHAPE" ∧
        (exportModel scriptedEnv .FormatIGES "out.igs" (some [cube, nullShape]) world0).1
          = .returned false)) :=
  exportModel_message_frame scriptedEnv .FormatIGES "out.igs" (some [cube, nullShape]) world0
    (by decide)

/-- Counterexample to C9 as stated: an STL export of a collection holding a null shape
changes `myInfo` from the empty string to `INF_TRANSLATE_ERROR_INVALIDSHAPE`. -/
theorem exportModel_STL_writes_message :
    world0.myInfo = "" ∧
    (exportModel scriptedEnv .FormatSTL "out.stl" (some [cube, nullShape]) world0).2.myInfo =
      "INF_TRANSLATE_ERROR_INVALIDSHAPE" ∧
    (exportModel scriptedEnv .FormatSTL "out.stl" (some [cube, nullShape]) world0).2.myInfo ≠
      world0.myInfo := by
  decide

/-! ## BREP round trip -/

/-- Where the round trip does hold: assuming a faithful kernel BREP codec (a file just
written with shape `x` reads back successfully as a shape equivalent to `x`), when
`exportBREP( file, [x] )` returns `true` on a one-shape collection, `importBREP( file )`
run next returns a collection equivalent to `[x]`. -/
theorem exportBREP_importBREP_single_shape {κ : Type} (E : Env κ)
    (equiv : TopoDS_Shape → TopoDS_Shape → Prop) (file : String)
    (x : TopoDS_Shape) (s s1 : World κ)
    (hcodec : ∀ shape path k k1, E.brepWrite shape path k = (.returned true, k1) →
      ∃ shape' k2, E.brepRead path k1 = (.returned (true, shape'), k2) ∧ equiv shape shape')
    (hexport : exportBREP E file (some [x]) s = (.returned true, s1)) :
    ∃ c s2, importBREP E file s1 = (.returned (some c), s2) ∧ List.Forall₂ equiv [x] c := by
  simp only [exportBREP, kcall_apply] at hexport
  rcases hw : E.brepWrite x (E.toLatin1 file) s.kernel with ⟨r, k1⟩
  rw [hw] at hexport
  simp only [Prod.mk.injEq] at hexport
  obtain ⟨hr, hs1⟩ := hexport
  subst hr
  obtain ⟨shape', k2, hread, heq⟩ := hcodec x (E.toLatin1 file) s.kernel k1 hw
  have hk : s1.kernel = k1 := by rw [← hs1]
  refine ⟨[shape'],
    { s1 with kernel := k2
              trace := s1.trace ++
                [KEvent.brepRead (E.toLatin1 file) (.returned (true, shape'))] }, ?_, ?_⟩
  · simp only [importBREP, Adapter.bind_apply, kcall_apply, hk, hread]
    rfl
  · exact List.Forall₂.cons heq List.Forall₂.nil

theorem scriptedEnv_brep_codec_faithful :
    ∀ (shape : TopoDS_Shape) (path : String) (k k1 : Disk),
      scriptedEnv.brepWrite shape path k = (.returned true, k1) →
        ∃ shape' k2, scriptedEnv.brepRead path k1 = (.returned (true, shape'), k2) ∧
          shape = shape' := by
  intro shape path k k1 h
  simp only [scriptedEnv, Prod.mk.injEq, true_and] at h
  subst h
  exact ⟨shape, (path, shape) :: k, by simp [scriptedEnv, List.lookup], rfl⟩

/-- The one-shape round trip on the scripted kernel. -/
theorem exportBREP_importBREP_single_shape_witness :
    ∃ c s2,
      importBREP scriptedEnv "a.brep"
          (exportBREP scriptedEnv "a.brep" (some [ball]) world0).2 =
        (.returned (some c), s2) ∧
      List.Forall₂ Eq [ball] c :=
  exportBREP_importBREP_single_shape scriptedEnv Eq "a.brep" ball world0 _
    scriptedEnv_brep_codec_faithful rfl

/-- C6 (defect). On the scripted kernel, whose BREP codec is faithful for equality of
shapes, the BREP export of `[cube, ball]` hands only `cube` to `BRepTools::Write` and still
returns `true`; `ball` is dropped without any report.  Importing the file back yields
`[cube]`: one shape, not two, so no collection equivalent to `[cube, ball]`.  The same
happens through `exportModel`. -/
theorem brep_round_trip_keeps_first_shape_only :
    exportModel scriptedEnv .FormatBREP "a.brep" (some [cube, ball]) world0 =
      (.returned true,
        { world0 with
          kernel := [("a.brep", cube)]
          trace := [KEvent.brepWrite cube "a.brep" (.returned true)] }) ∧
    (∀ (shape : TopoDS_Shape) (path : String) (k k1 : Disk),
      scriptedEnv.brepWrite shape path k = (.returned true, k1) →
        ∃ shape' k2, scriptedEnv.brepRead path k1 = (.returned (true, shape'), k2) ∧
          shape = shape') ∧
    (exportBREP scriptedEnv "a.brep" (some [cube, ball]) world0).1 = .returned true ∧
    (importBREP scriptedEnv "a.brep"
        (exportBREP scriptedEnv "a.brep" (some [cube, ball]) world0).2).1 =
      .returned (some [cube]) ∧
    ¬ ∃ c, (importBREP scriptedEnv "a.brep"
          (exportBREP scriptedEnv "a.brep" (some [cube, ball]) world0).2).1 =
        .returned (some c) ∧ List.Forall₂ Eq [cube, ball] c := by
  refine ⟨rfl, scriptedEnv_brep_codec_faithful, by decide, by decide, ?_⟩
  rintro ⟨c, hc, hforall⟩
  have h1 : (importBREP scriptedEnv "a.brep"
        (exportBREP scriptedEnv "a.brep" (some [cube, ball]) world0).2).1 =
      .returned (some [cube]) := by decide
  rw [h1] at hc
  injection hc with hc
  injection hc with hc
  subst hc
  cases hforall with
  | cons _ htail => cases htail

/-! ## Import of an accepted file -/

theorem Adapter.tryCatch_pure_snd {κ α : Type} (m : Adapter κ α) (a : α) (s : World κ) :
    (Adapter.tryCatch m (pure a) s).2 = (m s).2 := by
  unfold Adapter.tryCatch
  rcases m s with ⟨r, s1⟩
  cases r <;> rfl

theorem Adapter.tryCatch_of_returned {κ α : Type} (m h : Adapter κ α) (a : α) (s : World κ)
    (hm : (m s).1 = .returned a) : (Adapter.tryCatch m h s).1 = .returned a := by
  unfold Adapter.tryCatch
  rcases hms : m s with ⟨r, s1⟩
  rw [hms] at hm
  simp only at hm
  subst hm
  rfl

/-- For each of the five formats with a live exporter (BREP, IGES, STEP, STL, VRML), the
export of a null or of an empty collection returns `false` and leaves the world untouched:
no kernel call is made. -/
theorem exportModel_null_or_empty_returns_false {κ : Type} (E : Env κ)
    (format : FileFormat) (file : String) (s : World κ)
    (hformat : format ≠ .FormatCSFDB) :
    exportModel E format file none s = (.returned false, s) ∧
    exportModel E format file (some []) s = (.returned false, s) := by
  cases format with
  | FormatCSFDB => exact absurd rfl hformat
  | FormatBREP => exact ⟨rfl, rfl⟩
  | FormatIGES => exact ⟨rfl, rfl⟩
  | FormatSTEP => exact ⟨rfl, rfl⟩
  | FormatSTL => exact ⟨rfl, rfl⟩
  | FormatVRML => exact ⟨rfl, rfl⟩

/-- Witness: the STEP export of the null collection on the scripted kernel. -/
theorem exportModel_null_or_empty_returns_false_witness :
    exportModel scriptedEnv .FormatSTEP "out.step" none world0 = (.returned false, world0) ∧
    exportModel scriptedEnv .FormatSTEP "out.step" (some []) world0 =
      (.returned false, world0) :=
  exportModel_null_or_empty_returns_false scriptedEnv .FormatSTEP "out.step" world0
    (by decide)

theorem exportSTEP.transfer_events {κ : Type} (E : Env κ) (l : List TopoDS_Shape)
    (s : World κ) :
    ∃ evs, (exportSTEP.transfer E l s).2.trace = s.trace ++ evs ∧
      (∀ ev ∈ evs, ev.isFileWrite = false) ∧
      (∀ x st, KEvent.stepTransfer x (.returned st) ∈ evs → st ≠ .IFSelect_RetDone →
        (exportSTEP.transfer E l s).1 = .returned false ∧
          ∃ pre, evs = pre ++ [KEvent.stepTransfer x (.returned st)]) := by
  induction l generalizing s with
  | nil =>
    exact ⟨[], by simp [exportSTEP.transfer, Adapter.pure_apply], by simp, by simp⟩
  | cons shape rest ih =>
    simp only [exportSTEP.transfer, Adapter.bind_apply, kcall_apply]
    rcases hk : E.stepTransfer shape s.kernel with ⟨r, k⟩
    cases r with
    | raised e =>
      exact ⟨[KEvent.stepTransfer shape (.raised e)], rfl, by simp [KEvent.isFileWrite],
        by simp⟩
    | returned st0 =>
      simp only []
      by_cases hst : st0 = .IFSelect_RetDone
      · subst hst
        obtain ⟨evs, ht, hw, hf⟩ := ih
          { s with kernel := k
                   trace := s.trace ++
                    [KEvent.stepTransfer shape (.returned .IFSelect_RetDone)] }
        refine ⟨KEvent.stepTransfer shape (.returned .IFSelect_RetDone) :: evs,
          by simpa using ht, ?_, ?_⟩
        · intro ev hev
          rcases List.mem_cons.mp hev with rfl | hev
          · rfl
          · exact hw ev hev
        · intro x st hmem hne
          rcases List.mem_cons.mp hmem with heq | hmem
          · injection heq with _ hr
            injection hr with hr
            exact absurd hr hne
          · obtain ⟨hres, pre, hpre⟩ := hf x st hmem hne
            exact ⟨by simpa using hres,
              KEvent.stepTransfer shape (.returned .IFSelect_RetDone) :: pre, by simp [hpre]⟩
      · refine ⟨[KEvent.stepTransfer shape (.returned st0)],
          by simp [hst, Adapter.pure_apply], by simp [KEvent.isFileWrite], ?_⟩
        intro x st hmem _
        rw [List.mem_singleton] at hmem
        exact ⟨by simp [hst, Adapter.pure_apply], [], by simp [hmem]⟩

/-- STEP export has no partial success: when the `Transfer` of one shape of the
collection returns a status other than done, `exportModel` returns `false`, that
`Transfer` is the last kernel call made (no later shape is processed), and the file
writer is never invoked. -/
theorem exportModel_STEP_aborts_on_failed_transfer {κ : Type} (E : Env κ) (file : String)
    (shapes : Handle_TopTools_HSequenceOfShape) (s : World κ) (evs : List KEvent)
    (x : TopoDS_Shape) (st : IFSelect_ReturnStatus)
    (htrace : (exportModel E .FormatSTEP file shapes s).2.trace = s.trace ++ evs)
    (hmem : KEvent.stepTransfer x (.returned st) ∈ evs)
    (hst : st ≠ .IFSelect_RetDone) :
    (exportModel E .FormatSTEP file shapes s).1 = .returned false ∧
    (∃ pre, evs = pre ++ [KEvent.stepTransfer x (.returned st)]) ∧
    ∀ ev ∈ evs, ev.isFileWrite = false := by
  unfold exportModel at htrace ⊢
  rw [Adapter.tryCatch_pure_snd] at htrace
  simp only [exportModel.dispatch] at htrace ⊢
  rcases shapes with _ | _ | ⟨shape, rest⟩
  · have : s.trace ++ [] = s.trace ++ evs := by simpa [exportSTEP, Adapter.pure_apply] using htrace
    rw [← List.append_cancel_left this] at hmem
    simp at hmem
  · have : s.trace ++ [] = s.trace ++ evs := by simpa [exportSTEP, Adapter.pure_apply] using htrace
    rw [← List.append_cancel_left this] at hmem
    simp at hmem
  · have hrun : ∃ evs1, (exportSTEP E file (some (shape :: rest)) s).2.trace = s.trace ++ evs1 ∧
        (KEvent.stepTransfer x (.returned st) ∈ evs1 →
          (exportSTEP E file (some (shape :: rest)) s).1 = .returned false ∧
          (∃ pre, evs1 = pre ++ [KEvent.stepTransfer x (.returned st)]) ∧
          ∀ ev ∈ evs1, ev.isFileWrite = false) := by
      simp only [exportSTEP, Adapter.bind_apply, kvoid_apply]
      rcases hp : E.perform .stepWriterNew s.kernel with ⟨r0, k0⟩
      cases r0 with
      | raised e =>
        exact ⟨[KEvent.perform .stepWriterNew (.raised e)], rfl, by simp⟩
      | returned u =>
        simp only []
        obtain ⟨evs2, ht2, hw2, hf2⟩ := exportSTEP.transfer_events E (shape :: rest)
          { s with kernel := k0
                   trace := s.trace ++ [KEvent.perform .stepWriterNew (.returned u)] }
        rcases hloop : exportSTEP.transfer E (shape :: rest)
          { s with kernel := k0
                   trace := s.trace ++ [KEvent.perform .stepWriterNew (.returned u)] }
          with ⟨r1, s1⟩
        rw [hloop] at ht2 hf2
        simp only at ht2 hf2
        have hnowrite : ∀ ev ∈ KEvent.perform .stepWriterNew (.returned u) :: evs2,
            ev.isFileWrite = false := by
          intro ev hev
          rcases List.mem_cons.mp hev with rfl | hev
          · rfl
          · exact hw2 ev hev
        cases r1 with
        | raised e =>
          refine ⟨KEvent.perform .stepWriterNew (.returned u) :: evs2, by simpa using ht2, ?_⟩
          intro hin
          simp at hin
          cases (hf2 x st hin hst).1
        | returned done =>
          cases done with
          | false =>
            refine ⟨KEvent.perform .stepWriterNew (.returned u) :: evs2,
              by simpa [Adapter.pure_apply] using ht2, ?_⟩
            intro hin
            simp at hin
            obtain ⟨_, pre, hpre⟩ := hf2 x st hin hst
            exact ⟨by simp [Adapter.pure_apply],
              ⟨KEvent.perform .stepWriterNew (.returned u) :: pre, by simp [hpre]⟩, hnowrite⟩
          | true =>
            have hnot : KEvent.stepTransfer x (.returned st) ∉ evs2 := by
              intro hin
              have := (hf2 x st hin hst).1
              simp at this
            simp only [if_true, Adapter.bind_apply, kcall_apply]
            rcases hw : E.stepWrite (E.toLatin1 file) s1.kernel with ⟨r2, k2⟩
            refine ⟨KEvent.perform .stepWriterNew (.returned u) :: evs2 ++
              [KEvent.stepWrite (E.toLatin1 file) r2], ?_, ?_⟩
            · cases r2 with
              | raised e => simp [ht2]
              | returned st2 =>
                cases st2 <;> simp [exportSTEP.report, setInfo_apply, Adapter.pure_apply, ht2]
            · intro hin
              simp at hin
              exact absurd hin hnot
    obtain ⟨evs1, ht1, h1⟩ := hrun
    have hevs : evs1 = evs := List.append_cancel_left (ht1.symm.trans htrace)
    subst hevs
    obtain ⟨hres, hlast, hnw⟩ := h1 hmem
    exact ⟨Adapter.tryCatch_of_returned _ _ _ _ hres, hlast, hnw⟩

/-- Witness: a STEP export of `[cube, ball]` on a kernel whose `Transfer` reports fail. -/
theorem exportModel_STEP_aborts_on_failed_transfer_witness :
    (exportModel stepTransferFailEnv .FormatSTEP "out.step" (some [cube, ball]) world0).1 =
      .returned false ∧
    (∃ pre, [KEvent.perform .stepWriterNew (.returned ()),
        KEvent.stepTransfer cube (.returned .IFSelect_RetFail)] =
      pre ++ [KEvent.stepTransfer cube (.returned .IFSelect_RetFail)]) ∧
    ∀ ev ∈ [KEvent.perform .stepWriterNew (.returned ()),
        KEvent.stepTransfer cube (.returned .IFSelect_RetFail)], ev.isFileWrite = false :=
  exportModel_STEP_aborts_on_failed_transfer stepTransferFailEnv "out.step"
    (some [cube, ball]) world0
    [KEvent.perform .stepWriterNew (.returned ()),
      KEvent.stepTransfer cube (.returned .IFSelect_RetFail)]
    cube .IFSelect_RetFail (by decide) (by decide) (by decide)

theorem exportCompound.addAll_abort {κ : Type} (E : Env κ)
    (pre post : List TopoDS_Shape) (x : TopoDS_Shape) (s : World κ)
    (hpre : ∀ y ∈ pre, y.isNull = false) (hx : x.isNull = true) :
    ∃ evs, (exportCompound.addAll E (pre ++ x :: post) s).2.trace = s.trace ++ evs ∧
      (∀ ev ∈ evs, ∃ y ∈ pre, ∃ r, ev = KEvent.perform (.builderAdd y) r) ∧
      (exportCompound.addAll E (pre ++ x :: post) s).1 ≠ .returned true := by
  induction pre generalizing s with
  | nil =>
    refine ⟨[], ?_, by simp, ?_⟩
    · simp [exportCompound.addAll, hx, Adapter.bind_apply, setInfo_apply, Adapter.pure_apply]
    · simp [exportCompound.addAll, hx, Adapter.bind_apply, setInfo_apply, Adapter.pure_apply]
  | cons p pre ih =>
    have hp : p.isNull = false := hpre p (List.mem_cons_self _ _)
    have hrest : ∀ y ∈ pre, y.isNull = false := fun y hy => hpre y (List.mem_cons_of_mem _ hy)
    simp only [List.cons_append, exportCompound.addAll, hp, Bool.false_eq_true, if_false,
      Adapter.bind_apply, kvoid_apply]
    rcases hk : E.perform (.builderAdd p) s.kernel with ⟨r, k⟩
    cases r with
    | raised e =>
      refine ⟨[KEvent.perform (.builderAdd p) (.raised e)], rfl, ?_, by simp⟩
      intro ev hev
      rw [List.mem_singleton] at hev
      exact ⟨p, List.mem_cons_self _ _, _, hev⟩
    | returned u =>
      simp only []
      obtain ⟨evs, ht, hev, hres⟩ := ih
        { s with kernel := k
                 trace := s.trace ++ [KEvent.perform (.builderAdd p) (.returned u)] } hrest
      refine ⟨KEvent.perform (.builderAdd p) (.returned u) :: evs, by simpa using ht, ?_, hres⟩
      intro ev hmem
      rcases List.mem_cons.mp hmem with rfl | hmem
      · exact ⟨p, List.mem_cons_self _ _, _, rfl⟩
      · obtain ⟨y, hy, r, hr⟩ := hev ev hmem
        exact ⟨y, List.mem_cons_of_mem _ hy, r, hr⟩

theorem exportCompound.caught_abort {κ : Type} (E : Env κ)
    (pre post : List TopoDS_Shape) (x : TopoDS_Shape) (w : VoidCall) (s : World κ)
    (hpre : ∀ y ∈ pre, y.isNull = false) (hx : x.isNull = true) :
    ∃ evs,
      (Adapter.tryCatch (kvoid E .makeCompound >>= fun _ =>
          exportCompound.addAll E (pre ++ x :: post) >>= fun added =>
            if added = true then (kvoid E w >>= fun _ => pure true) else pure false)
        (pure false) s).2.trace = s.trace ++ evs ∧
      (∀ ev ∈ evs, (∃ r, ev = KEvent.perform .makeCompound r) ∨
        ∃ y ∈ pre, ∃ r, ev = KEvent.perform (.builderAdd y) r) ∧
      (Adapter.tryCatch (kvoid E .makeCompound >>= fun _ =>
          exportCompound.addAll E (pre ++ x :: post) >>= fun added =>
            if added = true then (kvoid E w >>= fun _ => pure true) else pure false)
        (pure false) s).1 = .returned false := by
  simp only [Adapter.tryCatch, Adapter.bind_apply, kvoid_apply]
  rcases hk : E.perform .makeCompound s.kernel with ⟨r, k⟩
  cases r with
  | raised e =>
    refine ⟨[KEvent.perform .makeCompound (.raised e)], rfl, ?_, rfl⟩
    intro ev hev
    rw [List.mem_singleton] at hev
    exact Or.inl ⟨_, hev⟩
  | returned u =>
    simp only []
    obtain ⟨evs, ht, hev, hres⟩ := exportCompound.addAll_abort E pre post x
      { s with kernel := k, trace := s.trace ++ [KEvent.perform .makeCompound (.returned u)] }
      hpre hx
    rcases hrun : exportCompound.addAll E (pre ++ x :: post)
      { s with kernel := k, trace := s.trace ++ [KEvent.perform .makeCompound (.returned u)] }
      with ⟨r1, s1⟩
    rw [hrun] at ht hres
    simp only at ht hres
    have hall : ∀ ev ∈ KEvent.perform .makeCompound (.returned u) :: evs,
        (∃ r, ev = KEvent.perform .makeCompound r) ∨
          ∃ y ∈ pre, ∃ r, ev = KEvent.perform (.builderAdd y) r := by
      intro ev hmem
      rcases List.mem_cons.mp hmem with rfl | hmem
      · exact Or.inl ⟨_, rfl⟩
      · exact Or.inr (hev ev hmem)
    cases r1 with
    | raised e =>
      exact ⟨KEvent.perform .makeCompound (.returned u) :: evs,
        by simpa [Adapter.pure_apply] using ht, hall, rfl⟩
    | returned added =>
      cases added with
      | true => exact absurd rfl hres
      | false =>
        exact ⟨KEvent.perform .makeCompound (.returned u) :: evs,
          by simpa [Adapter.pure_apply] using ht, hall, rfl⟩

/-- STL and VRML export have no partial success: when the collection holds a null shape,
`exportModel` returns `false`, the only kernel calls made are `MakeCompound` and the `Add`
of shapes that come before the first null shape (no later shape is processed), and the
file writer is never invoked. -/
theorem exportModel_compound_aborts_on_null_shape {κ : Type} (E : Env κ)
    (format : FileFormat) (file : String) (pre post : List TopoDS_Shape) (x : TopoDS_Shape)
    (s : World κ) (evs : List KEvent)
    (hformat : format = .FormatSTL ∨ format = .FormatVRML)
    (hpre : ∀ y ∈ pre, y.isNull = false) (hx : x.isNull = true)
    (htrace : (exportModel E format file (some (pre ++ x :: post)) s).2.trace =
      s.trace ++ evs) :
    (exportModel E format file (some (pre ++ x :: post)) s).1 = .returned false ∧
    (∀ ev ∈ evs, (∃ r, ev = KEvent.perform .makeCompound r) ∨
      ∃ y ∈ pre, ∃ r, ev = KEvent.perform (.builderAdd y) r) ∧
    ∀ ev ∈ evs, ev.isFileWrite = false := by
  obtain ⟨a, l, hl⟩ : ∃ a l, pre ++ x :: post = a :: l := by
    cases pre with
    | nil => exact ⟨x, post, rfl⟩
    | cons p pre => exact ⟨p, pre ++ x :: post, rfl⟩
  have key : ∃ evs1, (exportModel E format file (some (pre ++ x :: post)) s).2.trace =
        s.trace ++ evs1 ∧
      (∀ ev ∈ evs1, (∃ r, ev = KEvent.perform .makeCompound r) ∨
        ∃ y ∈ pre, ∃ r, ev = KEvent.perform (.builderAdd y) r) ∧
      (exportModel E format file (some (pre ++ x :: post)) s).1 = .returned false := by
    rcases hformat with hf | hf
    · subst hf
      have h := exportCompound.caught_abort E pre post x (.stlWrite (E.toLatin1 file)) s hpre hx
      rw [hl] at h ⊢
      exact h
    · subst hf
      have h := exportCompound.caught_abort E pre post x (.vrmlWrite (E.toLatin1 file)) s hpre hx
      rw [hl] at h ⊢
      exact h
  obtain ⟨evs1, ht1, hev, hres⟩ := key
  have hevs : evs1 = evs := List.append_cancel_left (ht1.symm.trans htrace)
  subst hevs
  refine ⟨hres, hev, ?_⟩
  intro ev hmem
  rcases hev ev hmem with ⟨r, rfl⟩ | ⟨y, _, r, rfl⟩ <;> rfl

/-- Witness: an STL export of `[cube, nullShape, ball]` on the scripted kernel. -/
theorem exportModel_compound_aborts_on_null_shape_witness :
    (exportModel scriptedEnv .FormatSTL "out.stl" (some ([cube] ++ nullShape :: [ball]))
      world0).1 = .returned false ∧
    (∀ ev ∈ [KEvent.perform .makeCompound (.returned ()),
        KEvent.perform (.builderAdd cube) (.returned ())],
      (∃ r, ev = KEvent.perform .makeCompound r) ∨
        ∃ y ∈ [cube], ∃ r, ev = KEvent.perform (.builderAdd y) r) ∧
    ∀ ev ∈ [KEvent.perform .makeCompound (.returned ()),
        KEvent.perform (.builderAdd cube) (.returned ())], ev.isFileWrite = false :=
  exportModel_compound_aborts_on_null_shape scriptedEnv .FormatSTL "out.stl" [cube] [ball]
    nullShape world0
    [KEvent.perform .makeCompound (.returned ()),
      KEvent.perform (.builderAdd cube) (.returned ())]
    (Or.inl rfl) (by decide) (by decide) (by decide)

/-! ## Further properties of the import path -/

theorem honest_importBREP {κ : Type} (E : Env κ) (file : String) :
    Honest (importBREP E file) := by
  unfold importBREP
  exact honest_bind (honest_kcall _ _ (fun _ => rfl)) fun _ =>
    honest_ite _ (honest_pure _) (honest_pure _)

theorem honest_importIGES {κ : Type} (E : Env κ) (file : String) :
    Honest (importIGES E file) := by
  unfold importIGES
  exact honest_bind (honest_kvoid _ _) fun _ =>
    honest_bind (honest_kcall _ _ (fun _ => rfl)) fun _ =>
      honest_ite _
        (honest_bind (honest_kvoid _ _) fun _ =>
          honest_bind (honest_kcall _ _ (fun _ => rfl)) fun _ => honest_pure _)
        (honest_pure _)

theorem honest_shapes {κ : Type} (E : Env κ) (count i : Nat) (acc : List TopoDS_Shape) :
    Honest (importSTEP.shapes E count i acc) := by
  induction count generalizing i acc with
  | zero => exact honest_pure _
  | succ count ih =>
    unfold importSTEP.shapes
    exact honest_bind (honest_kcall _ _ (fun _ => rfl)) fun _ => ih _ _

theorem honest_roots {κ : Type} (E : Env κ) (count n : Nat)
    (aSequence : Handle_TopTools_HSequenceOfShape) :
    Honest (importSTEP.roots E count n aSequence) := by
  induction count generalizing n aSequence with
  | zero => exact honest_pure _
  | succ count ih =>
    unfold importSTEP.roots
    exact honest_bind (honest_kcall _ _ (fun _ => rfl)) fun _ =>
      honest_ite _
        (honest_bind (honest_kcall _ _ (fun _ => rfl)) fun _ =>
          honest_ite _ (honest_bind (honest_shapes _ _ _ _) fun _ => ih _ _) (ih _ _))
        (ih _ _)

theorem honest_importSTEP {κ : Type} (E : Env κ) (file : String) :
    Honest (importSTEP E file) := by
  unfold importSTEP
  exact honest_bind (honest_kvoid _ _) fun _ =>
    honest_bind (honest_kcall _ _ (fun _ => rfl)) fun _ =>
      honest_ite _
        (honest_bind (honest_kvoid _ _) fun _ =>
          honest_bind (honest_kcall _ _ (fun _ => rfl)) fun _ =>
            honest_bind (honest_kvoid _ _) fun _ => honest_roots _ _ _ _)
        (honest_pure _)

theorem honest_importDispatch {κ : Type} (E : Env κ) (format : FileFormat) (file : String) :
    Honest (importModel.dispatch E format file) := by
  cases format
  · exact honest_importBREP E file
  · exact honest_importIGES E file
  · exact honest_importSTEP E file
  · exact honest_pure _
  · exact honest_pure _
  · exact honest_pure _

/-- `importModel( format, file )` never lets an exception escape, and when one of the
kernel calls it made raised `Standard_Failure` it returns the null collection. -/
theorem importModel_null_on_kernel_exception {κ : Type} (E : Env κ) (format : FileFormat)
    (file : String) (s : World κ) (evs : List KEvent)
    (htrace : (importModel E format file s).2.trace = s.trace ++ evs)
    (hraised : ∃ ev ∈ evs, ev.isRaised = true) :
    (importModel E format file s).1 = .returned none := by
  obtain ⟨evs1, ht1, hq1⟩ := honest_importDispatch E format file s
  unfold importModel Adapter.tryCatch at htrace ⊢
  rcases hrun : importModel.dispatch E format file s with ⟨r, s1⟩
  rw [hrun] at ht1 hq1 htrace
  cases r with
  | raised e => simp [Adapter.pure_apply]
  | returned a =>
    exfalso
    simp only at htrace ht1
    have hevs : evs1 = evs := List.append_cancel_left (ht1.symm.trans htrace)
    obtain ⟨ev, hmem, hr⟩ := hraised
    have := hq1 a rfl ev (hevs ▸ hmem)
    rw [this] at hr
    cases hr

/-- Witness: a BREP import on a kernel whose reader raises. -/
theorem importModel_null_on_kernel_exception_witness :
    (importModel brepReadRaisingEnv .FormatBREP "a.brep" world0).1 = .returned none :=
  importModel_null_on_kernel_exception brepReadRaisingEnv .FormatBREP "a.brep" world0
    [KEvent.brepRead "a.brep" (.raised { message := "BRepTools::Read" })]
    (by decide) ⟨_, List.mem_singleton.mpr rfl, by decide⟩

/-- For every format other than STL, `importModel( fileName, format, ic )` returns
`false`, with the override cursor restored, whenever `importModel( format, fileName )`
returns a null or an empty collection. -/
theorem importModelIC_false_of_null_import {κ : Type} (E : Env κ) (fileName : String)
    (format : FileFormat) (ic : AIS_InteractiveContext) (s : World κ)
    (hformat : format ≠ .FormatSTL)
    (hnull :
      (importModel E format fileName { s with overrideCursor := s.overrideCursor + 1 }).1 =
          .returned none ∨
      (importModel E format fileName { s with overrideCursor := s.overrideCursor + 1 }).1 =
          .returned (some [])) :
    importModelIC E fileName format ic s =
      (.returned false,
        { (importModel E format fileName
              { s with overrideCursor := s.overrideCursor + 1 }).2 with
          overrideCursor :=
            (importModel E format fileName
              { s with overrideCursor := s.overrideCursor + 1 }).2.overrideCursor - 1 }) := by
  simp only [importModelIC, hformat, if_false, Adapter.bind_apply, setOverrideCursor]
  rcases hrun : importModel E format fileName
    { s with overrideCursor := s.overrideCursor + 1 } with ⟨r, s1⟩
  rw [hrun] at hnull
  rcases hnull with h | h <;> simp only at h <;> subst h <;> rfl

/-- Witness: a VRML import, for which there is no reader. -/
theorem importModelIC_false_of_null_import_witness :
    importModelIC scriptedEnv "a.wrl" .FormatVRML { current := [] } world0 =
      (.returned false,
        { (importModel scriptedEnv .FormatVRML "a.wrl"
              { world0 with overrideCursor := world0.overrideCursor + 1 }).2 with
          overrideCursor :=
            (importModel scriptedEnv .FormatVRML "a.wrl"
              { world0 with overrideCursor := world0.overrideCursor + 1 }).2.overrideCursor
              - 1 }) :=
  importModelIC_false_of_null_import scriptedEnv "a.wrl" .FormatVRML { current := [] } world0
    (by decide) (Or.inl rfl)

theorem importSTEP.shapes_events {κ : Type} (E : Env κ) (count i : Nat)
    (acc : List TopoDS_Shape) (s : World κ) :
    ∃ evs, (importSTEP.shapes E count i acc s).2.trace = s.trace ++ evs ∧
      ∀ ev ∈ evs, ∃ j r, ev = KEvent.stepShape j r := by
  induction count generalizing i acc s with
  | zero => exact ⟨[], by simp [importSTEP.shapes, Adapter.pure_apply], by simp⟩
  | succ count ih =>
    simp only [importSTEP.shapes, Adapter.bind_apply, kcall_apply]
    rcases hk : E.stepShape i s.kernel with ⟨r, k⟩
    cases r with
    | raised e =>
      refine ⟨[KEvent.stepShape i (.raised e)], rfl, fun ev hev => ?_⟩
      rw [List.mem_singleton] at hev
      exact ⟨i, _, hev⟩
    | returned shape =>
      simp only []
      obtain ⟨evs, ht, hev⟩ := ih (i + 1) (acc ++ [shape])
        { s with kernel := k, trace := s.trace ++ [KEvent.stepShape i (.returned shape)] }
      refine ⟨KEvent.stepShape i (.returned shape) :: evs, by simpa using ht, ?_⟩
      intro ev hmem
      rcases List.mem_cons.mp hmem with rfl | hmem
      · exact ⟨i, _, rfl⟩
      · exact hev ev hmem

theorem importSTEP.roots_events {κ : Type} (E : Env κ) (count n : Nat)
    (aSequence : Handle_TopTools_HSequenceOfShape) (s : World κ) :
    ∃ evs, (importSTEP.roots E count n aSequence s).2.trace = s.trace ++ evs ∧
      ∀ ev ∈ evs, ∀ f r, ev ≠ KEvent.stepReadFile f r := by
  induction count generalizing n aSequence s with
  | zero => exact ⟨[], by simp [importSTEP.roots, Adapter.pure_apply], by simp⟩
  | succ count ih =>
    simp only [importSTEP.roots, Adapter.bind_apply, kcall_apply]
    rcases hk : E.stepTransferRoot n s.kernel with ⟨r, k⟩
    cases r with
    | raised e =>
      exact ⟨[KEvent.stepTransferRoot n (.raised e)], rfl, by simp⟩
    | returned ok =>
      simp only []
      cases ok with
      | false =>
        simp only [Bool.false_eq_true, if_false]
        obtain ⟨evs, ht, hev⟩ := ih (n + 1) aSequence
          { s with kernel := k
                   trace := s.trace ++ [KEvent.stepTransferRoot n (.returned false)] }
        refine ⟨KEvent.stepTransferRoot n (.returned false) :: evs, by simpa using ht, ?_⟩
        intro ev hmem f r
        rcases List.mem_cons.mp hmem with rfl | hmem
        · simp
        · exact hev ev hmem f r
      | true =>
        simp only [if_true, Adapter.bind_apply, kcall_apply]
        rcases hk2 : E.stepNbShapes k with ⟨r2, k2⟩
        cases r2 with
        | raised e =>
          exact ⟨[KEvent.stepTransferRoot n (.returned true), KEvent.stepNbShapes (.raised e)],
            by simp, by simp⟩
        | returned nbs =>
          simp only []
          by_cases hpos : nbs > 0
          · simp only [hpos, if_true, Adapter.bind_apply]
            obtain ⟨evs1, ht1, hev1⟩ := importSTEP.shapes_events E nbs.toNat 1 []
              { s with kernel := k2
                       trace := s.trace ++ [KEvent.stepTransferRoot n (.returned true)] ++
                         [KEvent.stepNbShapes (.returned nbs)] }
            rcases hrun : importSTEP.shapes E nbs.toNat 1 []
              { s with kernel := k2
                       trace := s.trace ++ [KEvent.stepTransferRoot n (.returned true)] ++
                         [KEvent.stepNbShapes (.returned nbs)] } with ⟨r3, s3⟩
            rw [hrun] at ht1
            simp only at ht1
            have hno1 : ∀ ev ∈ evs1, ∀ f r, ev ≠ KEvent.stepReadFile f r := by
              intro ev hmem f r
              obtain ⟨j, r', rfl⟩ := hev1 ev hmem
              simp
            cases r3 with
            | raised e =>
              refine ⟨KEvent.stepTransferRoot n (.returned true) ::
                KEvent.stepNbShapes (.returned nbs) :: evs1, by simpa using ht1, ?_⟩
              intro ev hmem f r
              simp only [List.mem_cons] at hmem
              rcases hmem with rfl | rfl | hmem
              · simp
              · simp
              · exact hno1 ev hmem f r
            | returned fresh =>
              obtain ⟨evs, ht, hev⟩ := ih (n + 1) (some fresh) s3
              refine ⟨KEvent.stepTransferRoot n (.returned true) ::
                KEvent.stepNbShapes (.returned nbs) :: (evs1 ++ evs), by simp [ht, ht1], ?_⟩
              intro ev hmem f r
              simp only [List.mem_cons, List.mem_append] at hmem
              rcases hmem with rfl | rfl | hmem | hmem
              · simp
              · simp
              · exact hno1 ev hmem f r
              · exact hev ev hmem f r
          · simp only [hpos, if_false]
            obtain ⟨evs, ht, hev⟩ := ih (n + 1) aSequence
              { s with kernel := k2
                       trace := s.trace ++ [KEvent.stepTransferRoot n (.returned true)] ++
                         [KEvent.stepNbShapes (.returned nbs)] }
            refine ⟨KEvent.stepTransferRoot n (.returned true) ::
              KEvent.stepNbShapes (.returned nbs) :: evs, by simpa using ht, ?_⟩
            intro ev hmem f r
            simp only [List.mem_cons] at hmem
            rcases hmem with rfl | rfl | hmem
            · simp
            · simp
            · exact hev ev hmem f r

theorem importBREP_reader_failure {κ : Type} (E : Env κ) (file : String) (s : World κ) :
    ∃ evs, (importBREP E file s).2.trace = s.trace ++ evs ∧
      ∀ shape, KEvent.brepRead (E.toLatin1 file) (.returned (false, shape)) ∈ evs →
        (importBREP E file s).1 = .returned none := by
  simp only [importBREP, Adapter.bind_apply, kcall_apply]
  rcases hk : E.brepRead (E.toLatin1 file) s.kernel with ⟨r, k⟩
  refine ⟨[KEvent.brepRead (E.toLatin1 file) r], ?_, ?_⟩
  · cases r with
    | raised e => rfl
    | returned p => simp only []; split <;> rfl
  · intro shape hmem
    rw [List.mem_singleton] at hmem
    injection hmem with _ hr
    subst hr
    rfl

theorem importIGES_reader_failure {κ : Type} (E : Env κ) (file : String) (s : World κ) :
    ∃ evs, (importIGES E file s).2.trace = s.trace ++ evs ∧
      ∀ st, st ≠ .IFSelect_RetDone →
        KEvent.igesReadFile (E.toLatin1 file) (.returned st) ∈ evs →
          (importIGES E file s).1 = .returned none := by
  simp only [importIGES, Adapter.bind_apply, kvoid_apply, kcall_apply]
  rcases h1 : E.perform .igesReaderNew s.kernel with ⟨r1, k1⟩
  cases r1 with
  | raised e => exact ⟨[KEvent.perform .igesReaderNew (.raised e)], rfl, by simp⟩
  | returned u1 =>
    simp only []
    rcases h2 : E.igesReadFile (E.toLatin1 file) k1 with ⟨r2, k2⟩
    cases r2 with
    | raised e =>
      exact ⟨[KEvent.perform .igesReaderNew (.returned u1),
        KEvent.igesReadFile (E.toLatin1 file) (.raised e)], by simp, by simp⟩
    | returned status =>
      simp only []
      by_cases hst : status = .IFSelect_RetDone
      · subst hst
        simp only [if_true, Adapter.bind_apply, kvoid_apply, kcall_apply]
        rcases h3 : E.perform .igesTransferRoots k2 with ⟨r3, k3⟩
        cases r3 with
        | raised e =>
          refine ⟨[KEvent.perform .igesReaderNew (.returned u1),
            KEvent.igesReadFile (E.toLatin1 file) (.returned .IFSelect_RetDone),
            KEvent.perform .igesTransferRoots (.raised e)], by simp, ?_⟩
          intro st hne hmem
          simp at hmem
          exact absurd hmem hne
        | returned u3 =>
          simp only []
          rcases h4 : E.igesOneShape k3 with ⟨r4, k4⟩
          refine ⟨[KEvent.perform .igesReaderNew (.returned u1),
            KEvent.igesReadFile (E.toLatin1 file) (.returned .IFSelect_RetDone),
            KEvent.perform .igesTransferRoots (.returned u3),
            KEvent.igesOneShape r4], ?_, ?_⟩
          · cases r4 <;> simp [Adapter.pure_apply]
          · intro st hne hmem
            simp at hmem
            exact absurd hmem hne
      · exact ⟨[KEvent.perform .igesReaderNew (.returned u1),
          KEvent.igesReadFile (E.toLatin1 file) (.returned status)],
          by simp [hst, Adapter.pure_apply], fun _ _ _ => by simp [hst, Adapter.pure_apply]⟩

theorem importSTEP_reader_failure {κ : Type} (E : Env κ) (file : String) (s : World κ) :
    ∃ evs, (importSTEP E file s).2.trace = s.trace ++ evs ∧
      ∀ st, st ≠ .IFSelect_RetDone →
        KEvent.stepReadFile (E.toLatin1 file) (.returned st) ∈ evs →
          (importSTEP E file s).1 = .returned none := by
  simp only [importSTEP, Adapter.bind_apply, kvoid_apply, kcall_apply]
  rcases h1 : E.perform .stepReaderNew s.kernel with ⟨r1, k1⟩
  cases r1 with
  | raised e => exact ⟨[KEvent.perform .stepReaderNew (.raised e)], rfl, by simp⟩
  | returned u1 =>
    simp only []
    rcases h2 : E.stepReadFile (E.toLatin1 file) k1 with ⟨r2, k2⟩
    cases r2 with
    | raised e =>
      exact ⟨[KEvent.perform .stepReaderNew (.returned u1),
        KEvent.stepReadFile (E.toLatin1 file) (.raised e)], by simp, by simp⟩
    | returned status =>
      simp only []
      by_cases hst : status = .IFSelect_RetDone
      · subst hst
        simp only [if_true, Adapter.bind_apply, kvoid_apply, kcall_apply]
        rcases h3 : E.perform (.stepPrintCheckLoad false) k2 with ⟨r3, k3⟩
        cases r3 with
        | raised e =>
          refine ⟨[KEvent.perform .stepReaderNew (.returned u1),
            KEvent.stepReadFile (E.toLatin1 file) (.returned .IFSelect_RetDone),
            KEvent.perform (.stepPrintCheckLoad false) (.raised e)], by simp, ?_⟩
          intro st hne hmem
          simp at hmem
          exact absurd hmem hne
        | returned u3 =>
          simp only []
          rcases h4 : E.stepNbRootsForTransfer k3 with ⟨r4, k4⟩
          cases r4 with
          | raised e =>
            refine ⟨[KEvent.perform .stepReaderNew (.returned u1),
              KEvent.stepReadFile (E.toLatin1 file) (.returned .IFSelect_RetDone),
              KEvent.perform (.stepPrintCheckLoad false) (.returned u3),
              KEvent.stepNbRootsForTransfer (.raised e)], by simp, ?_⟩
            intro st hne hmem
            simp at hmem
            exact absurd hmem hne
          | returned nbr =>
            simp only []
            rcases h5 : E.perform (.stepPrintCheckTransfer false) k4 with ⟨r5, k5⟩
            cases r5 with
            | raised e =>
              refine ⟨[KEvent.perform .stepReaderNew (.returned u1),
                KEvent.stepReadFile (E.toLatin1 file) (.returned .IFSelect_RetDone),
                KEvent.perform (.stepPrintCheckLoad false) (.returned u3),
                KEvent.stepNbRootsForTransfer (.returned nbr),
                KEvent.perform (.stepPrintCheckTransfer false) (.raised e)], by simp, ?_⟩
              intro st hne hmem
              simp at hmem
              exact absurd hmem hne
            | returned u5 =>
              simp only []
              obtain ⟨evs, ht, hev⟩ := importSTEP.roots_events E nbr.toNat 1 none
                { s with
                  kernel := k5
                  trace := s.trace ++ [KEvent.perform .stepReaderNew (.returned u1)] ++
                    [KEvent.stepReadFile (E.toLatin1 file) (.returned .IFSelect_RetDone)] ++
                    [KEvent.perform (.stepPrintCheckLoad false) (.returned u3)] ++
                    [KEvent.stepNbRootsForTransfer (.returned nbr)] ++
                    [KEvent.perform (.stepPrintCheckTransfer false) (.returned u5)] }
              refine ⟨[KEvent.perform .stepReaderNew (.returned u1),
                KEvent.stepReadFile (E.toLatin1 file) (.returned .IFSelect_RetDone),
                KEvent.perform (.stepPrintCheckLoad false) (.returned u3),
                KEvent.stepNbRootsForTransfer (.returned nbr),
                KEvent.perform (.stepPrintCheckTransfer false) (.returned u5)] ++ evs,
                by simpa using ht, ?_⟩
              intro st hne hmem
              simp at hmem
              rcases hmem with hmem | hmem
              · exact absurd hmem hne
              · exact absurd rfl (hev _ hmem _ _)
      · exact ⟨[KEvent.perform .stepReaderNew (.returned u1),
          KEvent.stepReadFile (E.toLatin1 file) (.returned status)],
          by simp [hst, Adapter.pure_apply], fun _ _ _ => by simp [hst, Adapter.pure_apply]⟩

/-- When the kernel reader reports failure (`BRepTools::Read` returns false, or `ReadFile`
of the IGES or STEP reader returns a status other than done), `importModel( format, file )`
returns the null collection. -/
theorem importModel_null_on_reader_failure {κ : Type} (E : Env κ) (format : FileFormat)
    (file : String) (s : World κ) (evs : List KEvent)
    (htrace : (importModel E format file s).2.trace = s.trace ++ evs)
    (hfail :
      (format = .FormatBREP ∧
        ∃ shape, KEvent.brepRead (E.toLatin1 file) (.returned (false, shape)) ∈ evs) ∨
      (format = .FormatIGES ∧
        ∃ st, st ≠ .IFSelect_RetDone ∧
          KEvent.igesReadFile (E.toLatin1 file) (.returned st) ∈ evs) ∨
      (format = .FormatSTEP ∧
        ∃ st, st ≠ .IFSelect_RetDone ∧
          KEvent.stepReadFile (E.toLatin1 file) (.returned st) ∈ evs)) :
    (importModel E format file s).1 = .returned none := by
  unfold importModel at htrace ⊢
  rw [Adapter.tryCatch_pure_snd] at htrace
  rcases hfail with ⟨hf, shape, hmem⟩ | ⟨hf, st, hne, hmem⟩ | ⟨hf, st, hne, hmem⟩
  · subst hf
    obtain ⟨evs1, ht1, h1⟩ := importBREP_reader_failure E file s
    have hevs : evs1 = evs := List.append_cancel_left (ht1.symm.trans htrace)
    exact Adapter.tryCatch_of_returned _ _ _ _ (h1 shape (hevs ▸ hmem))
  · subst hf
    obtain ⟨evs1, ht1, h1⟩ := importIGES_reader_failure E file s
    have hevs : evs1 = evs := List.append_cancel_left (ht1.symm.trans htrace)
    exact Adapter.tryCatch_of_returned _ _ _ _ (h1 st hne (hevs ▸ hmem))
  · subst hf
    obtain ⟨evs1, ht1, h1⟩ := importSTEP_reader_failure E file s
    have hevs : evs1 = evs := List.append_cancel_left (ht1.symm.trans htrace)
    exact Adapter.tryCatch_of_returned _ _ _ _ (h1 st hne (hevs ▸ hmem))

/-- Witness: a STEP import on a kernel whose `ReadFile` reports fail. -/
theorem importModel_null_on_reader_failure_witness :
    (importModel stepReadFailEnv .FormatSTEP "a.step" world0).1 = .returned none :=
  importModel_null_on_reader_failure stepReadFailEnv .FormatSTEP "a.step" world0
    [KEvent.perform .stepReaderNew (.returned ()),
      KEvent.stepReadFile "a.step" (.returned .IFSelect_RetFail)]
    (by decide)
    (Or.inr (Or.inr ⟨rfl, .IFSelect_RetFail, by decide, by decide⟩))

end Qocc
